import Mathlib

/-!
Verification of the Excel formula tokenizer (`src/efp.ts`,
`ExcelFormulaParser`).  The TypeScript class is shallowly embedded: the
mutable instance fields (`tokens`, `stack`, `currentToken` and the four
sub-context flags) become an explicit `ScanState` record, the character
cursor (`chars` / `offset`) becomes the list of remaining characters
threaded through the scanning loop, and each private method becomes a
function on `ScanState`.  The main loop `processChars` is driven by a fuel
argument; `2 * length + 1` fuel provably suffices because every iteration
either consumes a character or clears the `inError` flag (the flag is only
ever cleared once before a character is consumed), and `parse` passes
exactly that much, so the embedding is total and executable.

JavaScript semantics that the source relies on are modelled explicitly:
`value || buffer` falsiness in `addToken`, `String.prototype.trim`,
`Number.parseFloat` / `Number()` numeric classification (including the
double-precision overflow threshold), and the regex post-passes of
`render`.
-/

namespace EFP

/-- Token types, from the `TokenType` enum of `src/efp.ts`. -/
inductive TokenType where
  | Noop
  | Operand
  | Function
  | Subexpression
  | Argument
  | OperatorPrefix
  | OperatorInfix
  | OperatorPostfix
  | Whitespace
  | Unknown
deriving DecidableEq, Repr

/-- Token subtypes, from the `TokenSubType` enum of `src/efp.ts`.  The
TypeScript token field has type `TokenSubType | ""`; the empty string is
modelled as `Option.none`. -/
inductive TokenSubType where
  | Start
  | Stop
  | Text
  | Number
  | Logical
  | Error
  | Range
  | Math
  | Concatenation
  | Intersection
  | Union
deriving DecidableEq, Repr

/-- The `FormulaToken` interface: `{ value, type, subtype }`. -/
structure FormulaToken where
  value : String
  type : TokenType
  subtype : Option TokenSubType
deriving DecidableEq, Repr

/-! ## JavaScript string and number semantics used by the source -/

/-- The character class of JavaScript whitespace: what `\s` matches in a
regular expression, and what `String.prototype.trim` strips (WhiteSpace and
LineTerminator code points). -/
def jsWhitespace (c : Char) : Bool :=
  c = ' ' || c = '\t' || c = '\n' || c = '\x0b' || c = '\x0c' || c = '\r' ||
  c.toNat = 0xa0 || c.toNat = 0x1680 ||
  (0x2000 ≤ c.toNat && c.toNat ≤ 0x200a) ||
  c.toNat = 0x2028 || c.toNat = 0x2029 || c.toNat = 0x202f ||
  c.toNat = 0x205f || c.toNat = 0x3000 || c.toNat = 0xfeff

/-- `String.prototype.trim` on a character list: strip JavaScript
whitespace from both ends. -/
def jsTrimList (l : List Char) : List Char :=
  ((l.dropWhile jsWhitespace).reverse.dropWhile jsWhitespace).reverse

/-- `String.prototype.trim`. -/
def jsTrim (s : String) : String :=
  String.mk (jsTrimList s.toList)

/-- One step of `formula.replace(/^=/, "")`: strip a single leading `=`. -/
def stripLeadingEq (s : String) : String :=
  match s.toList with
  | '=' :: r => String.mk r
  | _ => s

/-- Decimal digit test for the JS numeric grammars. -/
def isDec (c : Char) : Bool := '0' ≤ c && c ≤ '9'

def isHexDig (c : Char) : Bool :=
  isDec c || ('a' ≤ c && c ≤ 'f') || ('A' ≤ c && c ≤ 'F')

def isOctDig (c : Char) : Bool := '0' ≤ c && c ≤ '7'

def isBinDig (c : Char) : Bool := c = '0' || c = '1'

def decVal (c : Char) : Nat := c.toNat - '0'.toNat

def hexVal (c : Char) : Nat :=
  if isDec c then decVal c
  else if 'a' ≤ c && c ≤ 'f' then c.toNat - 'a'.toNat + 10
  else c.toNat - 'A'.toNat + 10

def natOfDigitsBase (b : Nat) (v : Char → Nat) (ds : List Char) : Nat :=
  ds.foldl (fun a c => b * a + v c) 0

def natOfDec (ds : List Char) : Nat := natOfDigitsBase 10 decVal ds

/-- Does `Number.parseFloat(s)` return something other than `NaN`?  Per the
`parseFloat` algorithm this holds exactly when, after leading whitespace
and an optional sign, the string starts with `Infinity`, a decimal digit,
or a decimal point followed by a digit (a non-empty prefix of a
StrDecimalLiteral exists). -/
def jsParseFloatDefined (s : String) : Bool :=
  let t := s.toList.dropWhile jsWhitespace
  let u := match t with
    | c :: r => if c = '+' || c = '-' then r else t
    | [] => []
  match u with
  | 'I' :: 'n' :: 'f' :: 'i' :: 'n' :: 'i' :: 't' :: 'y' :: _ => true
  | '.' :: d :: _ => isDec d
  | d :: _ => isDec d
  | [] => false

/-- The exponent part of a StrDecimalLiteral: `[eE][+-]?digits`, which must
consume the whole remaining input.  Returns the signed exponent. -/
def jsExponentPart (l : List Char) : Option Int :=
  match l with
  | [] => some 0
  | e :: r =>
    if e = 'e' || e = 'E' then
      let signAndDigits : Int × List Char := match r with
        | '+' :: sr => (1, sr)
        | '-' :: sr => (-1, sr)
        | _ => (1, r)
      let ds := signAndDigits.2.takeWhile isDec
      let rest := signAndDigits.2.dropWhile isDec
      if ds = [] || rest ≠ [] then none
      else some (signAndDigits.1 * (natOfDec ds : Int))
    else none

/-- A whole-string StrUnsignedDecimalLiteral (without the `Infinity`
production): `digits [. digits] [exp]` or `. digits [exp]`.  When the
entire input matches, its exact magnitude is `m * 10 ^ k` for the returned
pair `(m, k)` (signs are handled by the caller and are irrelevant to the
finiteness test, the only thing `isNumber` needs). -/
def jsUnsignedDecimal (l : List Char) : Option (ℕ × ℤ) :=
  let ip := l.takeWhile isDec
  let r1 := l.dropWhile isDec
  match r1 with
  | '.' :: r2 =>
    let fp := r2.takeWhile isDec
    let r3 := r2.dropWhile isDec
    if ip = [] && fp = [] then none
    else
      match jsExponentPart r3 with
      | some e => some (natOfDec (ip ++ fp), e - (fp.length : ℤ))
      | none => none
  | _ =>
    if ip = [] then none
    else
      match jsExponentPart r1 with
      | some e => some (natOfDec ip, e)
      | none => none

/-- The result of the JavaScript `Number()` conversion on a string, up to
sign: `NaN`, an infinity, or a finite-precision-independent exact
magnitude `m * 10 ^ k`. -/
inductive JsNum where
  | nan
  | inf
  | val (m : ℕ) (k : ℤ)
deriving DecidableEq

/-- `Number(s)` on a string, per the ToNumber(StrNumericLiteral) grammar:
trim, empty means zero, a signless non-decimal literal (`0x`/`0o`/`0b`), or
a signed decimal literal / `Infinity`. -/
def jsToNumber (s : String) : JsNum :=
  let t := jsTrimList s.toList
  match t with
  | [] => .val 0 0
  | '0' :: x :: r =>
    if x = 'x' || x = 'X' then
      if r ≠ [] && r.all isHexDig then .val (natOfDigitsBase 16 hexVal r) 0
      else .nan
    else if x = 'o' || x = 'O' then
      if r ≠ [] && r.all isOctDig then .val (natOfDigitsBase 8 decVal r) 0
      else .nan
    else if x = 'b' || x = 'B' then
      if r ≠ [] && r.all isBinDig then .val (natOfDigitsBase 2 decVal r) 0
      else .nan
    else
      match jsUnsignedDecimal t with
      | some (m, k) => .val m k
      | none => .nan
  | _ =>
    let u : List Char := match t with
      | '+' :: r => r
      | '-' :: r => r
      | _ => t
    if u = "Infinity".toList then .inf
    else
      match jsUnsignedDecimal u with
      | some (m, k) => .val m k
      | none => .nan

/-- The double-precision overflow threshold: a mathematical value `v`
rounds to an IEEE-754 infinity exactly when `|v| ≥ 2^1024 − 2^970`. -/
def doubleMax : ℕ := 2 ^ 1024 - 2 ^ 970

/-- `Number.isFinite(Number(s))`: the magnitude `m * 10 ^ k` stays below
the overflow threshold (compared exactly in integers). -/
def jsNumberFinite (s : String) : Bool :=
  match jsToNumber s with
  | .val m k =>
    match k with
    | .ofNat e => m * 10 ^ e < doubleMax
    | .negSucc e => m < doubleMax * 10 ^ (e + 1)
  | _ => false

/-! ## The scanner state

The mutable instance fields of `ExcelFormulaParser`, minus the cursor:
`formula`, `chars` and `offset` are represented by the list of remaining
characters handed to `processChars`, and `resetState`'s `offset = 0`
corresponds to starting the loop on the whole character list. -/

structure ScanState where
  tokens : List FormulaToken
  stack : List FormulaToken
  currentToken : List Char
  inString : Bool
  inPath : Bool
  inRange : Bool
  inError : Bool
deriving DecidableEq, Repr

/-- The state of a freshly constructed parser instance (the field
initializers of the class). -/
def initState : ScanState :=
  { tokens := [], stack := [], currentToken := [],
    inString := false, inPath := false, inRange := false, inError := false }

/-- `resetState()`: clears every scanning field.  (`offset = 0` is the
cursor reset, represented by scanning the full character list.) -/
def resetState (st : ScanState) : ScanState :=
  { st with
    tokens := [], stack := [], currentToken := [],
    inString := false, inPath := false, inRange := false, inError := false }

/-- `isNumber(value)`: `!Number.isNaN(Number.parseFloat(value)) &&
Number.isFinite(Number(value))`. -/
def isNumber (value : String) : Bool :=
  jsParseFloatDefined value && jsNumberFinite value

/-- `isLogical(value)`. -/
def isLogical (value : String) : Bool :=
  value = "TRUE" || value = "FALSE"

/-- `isExcelError(value)` (the `value.startsWith("#")` test, also used by
`adjustTokenTypes`). -/
def isExcelError (value : String) : Bool :=
  match value.toList with
  | c :: _ => c = '#'
  | [] => false

/-- `addToken(type, subtype, value?)`.  `const tokenValue = value ||
this.currentToken.join("")`: an absent or empty `value` argument falls back
to the joined buffer.  A `Function` token whose value is the literal `"("`
is diverted into the operand-mutation branch instead of being pushed; in
every other case the token is appended.  Returns the new state and the
constructed token (the JS method's return value). -/
def addToken (st : ScanState) (type : TokenType) (subtype : Option TokenSubType)
    (value : Option String) : ScanState × FormulaToken :=
  let tokenValue : String := match value with
    | some v => if v = "" then String.mk st.currentToken else v
    | none => String.mk st.currentToken
  let token : FormulaToken := ⟨tokenValue, type, subtype⟩
  let st' :=
    if type = TokenType.Function ∧ tokenValue = "(" then
      match st.tokens.getLast? with
      | some prevToken =>
        if prevToken.type = TokenType.Operand then
          let m := { prevToken with type := TokenType.Function,
                                    subtype := some TokenSubType.Start }
          { st with tokens := st.tokens.dropLast ++ [m], stack := st.stack ++ [m] }
        else st
      | none => st
    else { st with tokens := st.tokens ++ [token] }
  ({ st' with currentToken := [] }, token)

/-- The classifying buffer flush shared by `finalizeCurrentToken` and
`addTokenFromBuffer`: when the buffer is non-empty, emit it as an Operand
classified Number / Logical / Range. -/
def flushBuffer (st : ScanState) : ScanState :=
  if st.currentToken = [] then st
  else
    let value := String.mk st.currentToken
    let st0 := { st with currentToken := [] }
    if isNumber value then
      (addToken st0 TokenType.Operand (some TokenSubType.Number) (some value)).1
    else if isLogical value then
      (addToken st0 TokenType.Operand (some TokenSubType.Logical) (some value)).1
    else
      (addToken st0 TokenType.Operand (some TokenSubType.Range) (some value)).1

/-- `finalizeCurrentToken()` (source lines 64-77). -/
def finalizeCurrentToken (st : ScanState) : ScanState := flushBuffer st

/-- `addTokenFromBuffer()` (source lines 442-455, textually the same
classification as `finalizeCurrentToken`). -/
def addTokenFromBuffer (st : ScanState) : ScanState := flushBuffer st

/-- `handleOpenBrace()`: flush, emit and push `Function/Start "ARRAY"`. -/
def handleOpenBrace (st : ScanState) : ScanState :=
  let st1 := finalizeCurrentToken st
  let r := addToken st1 TokenType.Function (some TokenSubType.Start) (some "ARRAY")
  { r.1 with stack := r.1.stack ++ [r.2] }

/-- `handleCloseBrace()`: flush, emit `Function/Stop "ARRAY"`, pop the
stack if non-empty. -/
def handleCloseBrace (st : ScanState) : ScanState :=
  let st1 := finalizeCurrentToken st
  let st2 := (addToken st1 TokenType.Function (some TokenSubType.Stop) (some "ARRAY")).1
  if st2.stack ≠ [] then { st2 with stack := st2.stack.dropLast } else st2

/-- `handleHash()`: flush, enter the in-error sub-context with the buffer
seeded to `#`. -/
def handleHash (st : ScanState) : ScanState :=
  let st1 := finalizeCurrentToken st
  { st1 with inError := true, currentToken := ['#'] }

/-- `handleComma()`: a comma is a Union operator inside an array or at top
level, and an Argument separator inside a function. -/
def handleComma (st : ScanState) : ScanState :=
  let st1 := finalizeCurrentToken st
  let inArray := st1.stack.any fun t => t.value = "ARRAY" || t.value = "ARRAYROW"
  let inFunction := st1.stack.any fun t => t.type = TokenType.Function
  if inArray then
    (addToken st1 TokenType.OperatorInfix (some TokenSubType.Union) (some ",")).1
  else if inFunction then
    (addToken st1 TokenType.Argument none (some ",")).1
  else
    (addToken st1 TokenType.OperatorInfix (some TokenSubType.Union) (some ",")).1

/-- `handleColon()`. -/
def handleColon (st : ScanState) : ScanState :=
  let st1 := finalizeCurrentToken st
  (addToken st1 TokenType.OperatorInfix (some TokenSubType.Range) (some ":")).1

/-- `handleArraySeparator()`: with exactly one `ARRAY` entry on the stack a
semicolon closes and reopens an `ARRAYROW`; otherwise it is a bare
Argument separator. -/
def handleArraySeparator (st : ScanState) : ScanState :=
  let st1 := finalizeCurrentToken st
  let lastArrayDepth := (st1.stack.filter fun t => t.value = "ARRAY").length
  if lastArrayDepth = 1 then
    let st2 := (addToken st1 TokenType.Function (some TokenSubType.Stop) (some "ARRAYROW")).1
    let st3 := (addToken st2 TokenType.Argument none (some ";")).1
    let r := addToken st3 TokenType.Function (some TokenSubType.Start) (some "ARRAYROW")
    { r.1 with stack := r.1.stack ++ [r.2] }
  else
    (addToken st1 TokenType.Argument none (some ";")).1

/-- `handleOpenParen()`: an immediately preceding Operand is mutated in
place into a `Function/Start` (and pushed); otherwise a fresh
`Subexpression/Start` is emitted and pushed. -/
def handleOpenParen (st : ScanState) : ScanState :=
  let st1 := addTokenFromBuffer st
  match st1.tokens.getLast? with
  | some prevToken =>
    if prevToken.type = TokenType.Operand then
      let m := { prevToken with type := TokenType.Function,
                                subtype := some TokenSubType.Start }
      { st1 with tokens := st1.tokens.dropLast ++ [m], stack := st1.stack ++ [m] }
    else
      let r := addToken st1 TokenType.Subexpression (some TokenSubType.Start) (some "")
      { r.1 with stack := r.1.stack ++ [r.2] }
  | none =>
    let r := addToken st1 TokenType.Subexpression (some TokenSubType.Start) (some "")
    { r.1 with stack := r.1.stack ++ [r.2] }

/-- `handleCloseParen()`: pop the stack and close the popped scope; with an
empty stack still emit a defensive `Subexpression/Stop`. -/
def handleCloseParen (st : ScanState) : ScanState :=
  let st1 := addTokenFromBuffer st
  match st1.stack.getLast? with
  | some stackToken =>
    let st2 := { st1 with stack := st1.stack.dropLast }
    if stackToken.type = TokenType.Function then
      (addToken st2 TokenType.Function (some TokenSubType.Stop) (some "")).1
    else
      (addToken st2 TokenType.Subexpression (some TokenSubType.Stop) (some "")).1
  | none =>
    (addToken st1 TokenType.Subexpression (some TokenSubType.Stop) (some "")).1

/-- `isComparisonOperator(op)`. -/
def isComparisonOperator (op : String) : Bool :=
  op = "<=" || op = ">=" || op = "<>"

/-- `isInfixOperator(char)`: membership in `"+-*/^&=><"`. -/
def isInfixOperator (c : Char) : Bool :=
  c = '+' || c = '-' || c = '*' || c = '/' || c = '^' ||
  c = '&' || c = '=' || c = '>' || c = '<'

/-- The delimiter class of `handleError`'s regex
`/[\s+\-*/^&=<>,()]/`. -/
def isErrorDelim (c : Char) : Bool :=
  jsWhitespace c || c = '+' || c = '-' || c = '*' || c = '/' || c = '^' ||
  c = '&' || c = '=' || c = '<' || c = '>' || c = ',' || c = '(' || c = ')'

/-! ## The sub-context handlers and the scanning loop

Each handler takes the current character and, when it can consume more
than that single character, also the remaining characters, returning the
updated state (and remaining characters); the loop recurses on what is
left.  `processChars fuel cs st` is the `while (offset < chars.length)
processNextCharacter()` loop run on the remaining characters `cs`.  Each
iteration consumes one fuel unit; `2 * cs.length + 1` units always
suffice, because an iteration consumes at least one character except in the
single case of `handleError` meeting an immediate delimiter, which instead
clears `inError` (so that case happens at most once in a row). -/

/-- `handleString(char)` (lines 187-201): a doubled `""` buffers one quote
and stays in the string; a single `"` closes it and emits an Operand/Text
token from the buffer; anything else is buffered. -/
def handleString (st : ScanState) (c : Char) (rest : List Char) :
    ScanState × List Char :=
  if c = '"' then
    if rest.head? = some '"' then
      ({ st with currentToken := st.currentToken ++ ['"'] }, rest.tail)
    else
      ((addToken { st with inString := false }
        TokenType.Operand (some TokenSubType.Text) none).1, rest)
  else
    ({ st with currentToken := st.currentToken ++ [c] }, rest)

/-- `handlePath(char)` (lines 203-216): like `handleString` with `'`, but
closing emits no token. -/
def handlePath (st : ScanState) (c : Char) (rest : List Char) :
    ScanState × List Char :=
  if c = '\'' then
    if rest.head? = some '\'' then
      ({ st with currentToken := st.currentToken ++ ['\''] }, rest.tail)
    else
      ({ st with inPath := false }, rest)
  else
    ({ st with currentToken := st.currentToken ++ [c] }, rest)

/-- `handleRange(char)` (lines 218-223): buffer every character; `]`
leaves the sub-context (the bracket itself is kept in the buffer). -/
def handleRange (st : ScanState) (c : Char) : ScanState :=
  { st with inRange := if c = ']' then false else st.inRange,
            currentToken := st.currentToken ++ [c] }

/-- `handleError(char)` (lines 225-242): consume up to the first delimiter,
emit an Operand/Error token from the buffer, and resume normal scanning at
the delimiter (the loop re-dispatches on it). -/
def handleError (st : ScanState) (c : Char) (rest : List Char) :
    ScanState × List Char :=
  let taken := (c :: rest).takeWhile fun x => !isErrorDelim x
  let rem := (c :: rest).dropWhile fun x => !isErrorDelim x
  let st1 := { st with
    currentToken := st.currentToken ++ taken, inError := false }
  ((addToken st1 TokenType.Operand (some TokenSubType.Error) none).1, rem)

/-- `handleWhitespace(char)` (lines 428-440), already knowing the
character is a space: emit one Whitespace token and skip the run. -/
def handleWhitespace (st : ScanState) (rest : List Char) :
    ScanState × List Char :=
  let st1 := addTokenFromBuffer st
  let st2 := (addToken st1 TokenType.Whitespace none (some " ")).1
  (st2, rest.dropWhile fun x => x = ' ')

/-- The case of `[` in `handleStructuralCharacters`: enter the
in-bracket-range sub-context, keeping the `[` in the buffer. -/
def handleOpenBracket (st : ScanState) : ScanState :=
  { st with inRange := true, currentToken := st.currentToken ++ ['['] }

/-- The single-character part of one `processNextCharacter` iteration
outside every sub-context: the single-character cases of `handleOperators`
(lines 263-275), then `handleStructuralCharacters` (lines 288-321), then
`handleWhitespace`, else buffer accumulation.  Returns the updated state
and the remaining characters. -/
def stepSingle (st : ScanState) (c : Char) (rest : List Char) :
    ScanState × List Char :=
  if isInfixOperator c then
    let st1 := addTokenFromBuffer st
    ((addToken st1 TokenType.OperatorInfix none (some (String.mk [c]))).1, rest)
  else if c = '%' then
    let st1 := addTokenFromBuffer st
    ((addToken st1 TokenType.OperatorPostfix none (some "%")).1, rest)
  else if c = '(' then (handleOpenParen st, rest)
  else if c = ')' then (handleCloseParen st, rest)
  else if c = '\x7b' then (handleOpenBrace st, rest)
  else if c = '\x7d' then (handleCloseBrace st, rest)
  else if c = '[' then (handleOpenBracket st, rest)
  else if c = '#' then (handleHash st, rest)
  else if c = ',' then (handleComma st, rest)
  else if c = ':' then (handleColon st, rest)
  else if c = ';' then (handleArraySeparator st, rest)
  else if c = ' ' then handleWhitespace st rest
  else ({ st with currentToken := st.currentToken ++ [c] }, rest)

/-- One full `processNextCharacter` iteration outside every sub-context:
the two-character comparison operators of `handleOperators` (lines
248-261) are detected first, consuming two characters; otherwise
`stepSingle`. -/
def stepNormal (st : ScanState) (c : Char) (rest : List Char) :
    ScanState × List Char :=
  let doubleChar : Option String := match rest.head? with
    | some n =>
      let d := String.mk [c, n]
      if isComparisonOperator d then some d else none
    | none => none
  match doubleChar with
  | some d =>
    let st1 := addTokenFromBuffer st
    ((addToken st1 TokenType.OperatorInfix (some TokenSubType.Logical) (some d)).1,
      rest.tail)
  | none => stepSingle st c rest

def processChars : Nat → List Char → ScanState → ScanState
  | 0, _, st => st
  | _ + 1, [], st => st
  | fuel + 1, c :: rest, st =>
    -- handleComplexStates, checked first
    if st.inString then
      processChars fuel (handleString st c rest).2 (handleString st c rest).1
    else if st.inPath then
      processChars fuel (handlePath st c rest).2 (handlePath st c rest).1
    else if st.inRange then
      processChars fuel rest (handleRange st c)
    else if st.inError then
      processChars fuel (handleError st c rest).2 (handleError st c rest).1
    else
      processChars fuel (stepNormal st c rest).2 (stepNormal st c rest).1

/-! ## Post-processing -/

/-- `adjustTokenTypes(token)`: refine OperatorInfix subtypes to
Concatenation / Logical / Math, then error-shaped Operand/Range values to
Operand/Error. -/
def adjustTokenTypes (token : FormulaToken) : FormulaToken :=
  let t1 :=
    if token.type = TokenType.OperatorInfix then
      if token.value = "&" then
        { token with subtype := some TokenSubType.Concatenation }
      else if token.value = "=" ∨ token.value = "<" ∨ token.value = ">" then
        { token with subtype := some TokenSubType.Logical }
      else
        { token with subtype := some TokenSubType.Math }
    else token
  if t1.type = TokenType.Operand ∧ t1.subtype = some TokenSubType.Range then
    if isExcelError t1.value then { t1 with subtype := some TokenSubType.Error }
    else t1
  else t1

/-- `postProcessTokens()`: drop Whitespace tokens and the synthetic
`Function`-typed `"("` markers, and refine the rest. -/
def postProcessTokens (tokens : List FormulaToken) : List FormulaToken :=
  (tokens.filter fun t => !(t.type = TokenType.Whitespace : Bool)).filterMap
    fun t =>
      if t.type = TokenType.Function ∧ t.value = "(" then none
      else some (adjustTokenTypes t)

/-! ## The public parse entry point -/

/-- `parse(formula)` as a function of the instance state: degenerate
inputs return an empty stream without resetting; otherwise the state is
reset, a leading `=` is stripped, and the character loop runs to the end
followed by `finalizeCurrentToken` and `postProcessTokens`.  Returns the
instance state after the call together with the returned token stream. -/
def parseOn (st : ScanState) (formula : String) : ScanState × List FormulaToken :=
  if jsTrim formula = "" ∨ formula ∈ ["+", "-", "*", "/"] then (st, [])
  else
    let st1 := resetState st
    let cs := (stripLeadingEq formula).toList
    let st2 := processChars (2 * cs.length + 1) cs st1
    let st3 := finalizeCurrentToken st2
    (st3, postProcessTokens st3.tokens)

/-- `parse(formula)` on a freshly constructed `ExcelFormulaParser`. -/
def parse (formula : String) : List FormulaToken :=
  (parseOn initState formula).2

/-! ## The renderer

`render(tokens)` builds the raw output text by a fold over the tokens and
then applies the final regex pipeline
`.replace(/\s+/g, " ")` → `.replace(/([+\-*/^=<>])\s+/g, "$1")` →
`.replace(/\s+([+\-*/^=<>])/g, "$1")` → `.replace(/" "/g, '""')` →
`.trim()`. -/

/-- The operator class of the two space-stripping regexes of `render`
(note `&`, `%`, `,` and `:` are not in it). -/
def renderOpClass (c : Char) : Bool :=
  c = '+' || c = '-' || c = '*' || c = '/' || c = '^' ||
  c = '=' || c = '<' || c = '>'

/-- `replace(/\s+/g, " ")`: collapse every whitespace run to one space.
The flag records whether the previous character was whitespace. -/
def collapseWsAux : Bool → List Char → List Char
  | _, [] => []
  | prevWs, c :: cs =>
    if jsWhitespace c then
      if prevWs then collapseWsAux true cs else ' ' :: collapseWsAux true cs
    else c :: collapseWsAux false cs

def collapseWs (l : List Char) : List Char := collapseWsAux false l

/-- `replace(/([+\-*/^=<>])\s+/g, "$1")`: delete every whitespace run
immediately following an operator-class character.  The flag records
whether the previous kept character was in the class. -/
def stripWsAfterOpAux : Bool → List Char → List Char
  | _, [] => []
  | afterOp, c :: cs =>
    if jsWhitespace c then
      if afterOp then stripWsAfterOpAux true cs
      else c :: stripWsAfterOpAux false cs
    else if renderOpClass c then c :: stripWsAfterOpAux true cs
    else c :: stripWsAfterOpAux false cs

def stripWsAfterOp (l : List Char) : List Char := stripWsAfterOpAux false l

/-- `replace(/\s+([+\-*/^=<>])/g, "$1")`: delete every whitespace run
immediately preceding an operator-class character; computed as the mirror
image of `stripWsAfterOp`. -/
def stripWsBeforeOp (l : List Char) : List Char :=
  (stripWsAfterOp l.reverse).reverse

/-- `replace(/" "/g, '""')`: every literal quote-space-quote becomes a
doubled quote (non-overlapping, left to right). -/
def replaceQuoteSpaceQuote : List Char → List Char
  | '"' :: ' ' :: '"' :: cs => '"' :: '"' :: replaceQuoteSpaceQuote cs
  | c :: cs => c :: replaceQuoteSpaceQuote cs
  | [] => []

/-- One token's contribution to `render`'s output, together with the
updated array-nesting depth (the `switch` inside the loop).  In the source
the `OperatorInfix ","` case reads `arrayDepth > 0 ? "," : ","` — both
branches are the bare comma. -/
def renderToken (acc : List Char × Int) (token : FormulaToken) : List Char × Int :=
  let (output, arrayDepth) := acc
  match token.type with
  | TokenType.Function =>
    if token.value = "ARRAY" ∨ token.value = "ARRAYROW" then
      if token.subtype = some TokenSubType.Start then
        (output ++ ['\x7b'], arrayDepth + 1)
      else
        (output ++ ['\x7d'], arrayDepth - 1)
    else
      if token.subtype = some TokenSubType.Start then
        (output ++ token.value.toList ++ ['('], arrayDepth)
      else
        (output ++ [')'], arrayDepth)
  | TokenType.Subexpression =>
    (output ++ [if token.subtype = some TokenSubType.Start then '(' else ')'],
     arrayDepth)
  | TokenType.OperatorInfix =>
    if token.value = "," then (output ++ [','], arrayDepth)
    else (output ++ [' '] ++ token.value.toList ++ [' '], arrayDepth)
  | TokenType.OperatorPostfix => (output ++ token.value.toList, arrayDepth)
  | TokenType.Argument =>
    (output ++ [if arrayDepth > 1 then ';' else ','], arrayDepth)
  | TokenType.Operand =>
    if token.subtype = some TokenSubType.Text then
      (output ++ ['"'] ++ token.value.toList ++ ['"'], arrayDepth)
    else (output ++ token.value.toList, arrayDepth)
  | _ => (output ++ token.value.toList, arrayDepth)

/-- `render(tokens)`. -/
def render (tokens : List FormulaToken) : String :=
  let (output, _) := tokens.foldl renderToken ([], 0)
  String.mk (jsTrimList (replaceQuoteSpaceQuote
    (stripWsBeforeOp (stripWsAfterOp (collapseWs output)))))

/-- Whitespace normalization used to compare formula texts: remove every
JavaScript-whitespace character (the test suite's
`replace(/\s+/g, "")`). -/
def wsNormalize (s : String) : String :=
  String.mk (s.toList.filter fun c => !jsWhitespace c)

/-! ## Nesting depth and the delimiter reference automaton -/

/-- A token's contribution to the Start/Stop nesting depth. -/
def depthDelta (t : FormulaToken) : Int :=
  if t.subtype = some TokenSubType.Start then 1
  else if t.subtype = some TokenSubType.Stop then -1
  else 0

/-- The net Start/Stop nesting depth of a token stream: scanning left to
right, `+1` at each Start-subtype token and `-1` at each Stop-subtype
token. -/
def netDepth (ts : List FormulaToken) : Int :=
  (ts.map depthDelta).sum

/-- The three character-handling modes of the scanner that are reachable
from a reset state (the in-string and in-path flags are never set). -/
inductive SMode where
  | norm
  | rng
  | err
deriving DecidableEq

/-- Depth contribution of one character in normal mode. -/
def normDelta (c : Char) : Int :=
  if c = '(' ∨ c = '\x7b' then 1
  else if c = ')' ∨ c = '\x7d' then -1
  else 0

/-- Depth contribution of an error-delimiter character (only parentheses
are both error delimiters and structural). -/
def parenDelta (c : Char) : Int :=
  if c = '(' then 1 else if c = ')' then -1 else 0

/-- The reference count of unmatched structural delimiters: a per-character
automaton over the scanner's sub-context modes.  It follows the scanner:
brackets open the in-range mode (which swallows everything up to `]`), `#`
opens the in-error mode (which swallows everything up to the delimiter
class), and otherwise `(`/`{` count `+1` and `)`/`}` count `-1`. -/
def structNet : SMode → List Char → Int
  | _, [] => 0
  | .norm, c :: cs =>
    if c = '[' then structNet .rng cs
    else if c = '#' then structNet .err cs
    else normDelta c + structNet .norm cs
  | .rng, c :: cs => if c = ']' then structNet .norm cs else structNet .rng cs
  | .err, c :: cs =>
    if isErrorDelim c then parenDelta c + structNet .norm cs
    else structNet .err cs

/-- The automaton mode corresponding to a scanner state. -/
def modeOf (st : ScanState) : SMode :=
  if st.inRange then .rng else if st.inError then .err else .norm

/-- Delimiter balance of an input string as the scanner sees it: the
formalization of "no unmatched opening or closing delimiter".  The leading
`=` is stripped exactly as `parse` strips it. -/
def balancedDelims (s : String) : Prop :=
  structNet .norm (stripLeadingEq s).toList = 0

/-! ## Scan invariants -/

/-- The shape invariant of every token the scanner emits: its value is
never the bare `"("` marker, its subtype is never `Text` (the in-string
close is unreachable), and Operand / OperatorInfix / Whitespace tokens
never carry a Start or Stop subtype. -/
structure OkTok (t : FormulaToken) : Prop where
  hval : t.value ≠ "("
  htext : t.subtype ≠ some TokenSubType.Text
  hoperand : t.type = TokenType.Operand →
    t.subtype ≠ some TokenSubType.Start ∧ t.subtype ≠ some TokenSubType.Stop
  hinfx : t.type = TokenType.OperatorInfix →
    t.subtype ≠ some TokenSubType.Start ∧ t.subtype ≠ some TokenSubType.Stop
  hws : t.type = TokenType.Whitespace → t.subtype = none

/-- The state invariant maintained by the scanning loop: the dead
in-string / in-path flags stay false, the in-range and in-error contexts
are mutually exclusive and imply their seed character is buffered, a `(`
can only sit in the buffer behind a `[`, and every emitted token satisfies
`OkTok`. -/
structure GoodState (st : ScanState) : Prop where
  hs : st.inString = false
  hp : st.inPath = false
  hre : st.inRange = true → st.inError = false
  hrb : st.inRange = true → '[' ∈ st.currentToken
  heb : st.inError = true → '#' ∈ st.currentToken
  hbuf : '(' ∈ st.currentToken → '[' ∈ st.currentToken
  htoks : ∀ t ∈ st.tokens, OkTok t

/-! ## Verification infrastructure: invariant helpers -/

/-- The classification a non-empty buffer flush applies (the common body of
`finalizeCurrentToken` and `addTokenFromBuffer`). -/
def classifyValue (value : String) : FormulaToken :=
  if isNumber value then ⟨value, TokenType.Operand, some TokenSubType.Number⟩
  else if isLogical value then ⟨value, TokenType.Operand, some TokenSubType.Logical⟩
  else ⟨value, TokenType.Operand, some TokenSubType.Range⟩

/-- The tokens appended by a buffer flush. -/
def flushToks (buf : List Char) : List FormulaToken :=
  if buf = [] then [] else [classifyValue (String.mk buf)]

/-- Normal scanning mode: the invariant holds and no sub-context is
open. -/
def NormalGood (st : ScanState) : Prop :=
  GoodState st ∧ st.inRange = false ∧ st.inError = false

/-- The token produced by the in-place operand-to-function mutation of
`handleOpenParen`. -/
def mutatedTok (prev : FormulaToken) : FormulaToken :=
  { prev with type := TokenType.Function, subtype := some TokenSubType.Start }

/-- The Operand/Error token `handleError` emits. -/
def errorTok (st : ScanState) (c : Char) (rest : List Char) : FormulaToken :=
  ⟨String.mk (st.currentToken ++ ((c :: rest).takeWhile fun x => !isErrorDelim x)),
    TokenType.Operand, some TokenSubType.Error⟩

/-! ## Lemmas -/

set_option maxHeartbeats 1600000

theorem goodState_init : GoodState initState := by
  constructor <;> simp [initState]



theorem string_mk_nil : String.mk [] = "" := rfl

theorem string_mk_eq_paren {l : List Char} (h : String.mk l = "(") : l = ['('] := by
  simpa using congrArg String.data h

theorem netDepth_append (a b : List FormulaToken) :
    netDepth (a ++ b) = netDepth a + netDepth b := by
  simp [netDepth]

theorem netDepth_singleton (t : FormulaToken) : netDepth [t] = depthDelta t := by
  simp [netDepth]

theorem length_dropWhile_le (p : Char → Bool) (l : List Char) :
    (l.dropWhile p).length ≤ l.length := by
  induction l with
  | nil => simp
  | cons a t ih =>
    by_cases h : p a
    · simp [List.dropWhile, h]; omega
    · simp [List.dropWhile, h]





theorem flushBuffer_eq (st : ScanState) :
    flushBuffer st =
      { st with tokens := st.tokens ++ flushToks st.currentToken,
                currentToken := [] } := by
  by_cases h : st.currentToken = []
  · simp [flushBuffer, flushToks, h]
    cases st
    simp_all
  · simp only [flushBuffer, flushToks, h, if_neg]
    have hv : ¬(String.mk st.currentToken = "") := by
      intro hc
      exact h (by simpa using congrArg String.data hc)
    by_cases hn : isNumber (String.mk st.currentToken) <;>
      by_cases hl : isLogical (String.mk st.currentToken) <;>
        simp [addToken, classifyValue, hn, hl, hv]

/-- `addToken` with an explicit value argument on an empty buffer, when the
operand-mutation guard cannot fire: a plain push. -/
theorem addToken_push (st : ScanState) (ty : TokenType) (sub : Option TokenSubType)
    (v : String) (hbuf : st.currentToken = [])
    (hg : ty = TokenType.Function → v ≠ "(") :
    addToken st ty sub (some v) =
      ({ st with tokens := st.tokens ++ [⟨v, ty, sub⟩], currentToken := [] },
        (⟨v, ty, sub⟩ : FormulaToken)) := by
  have hval : (if v = "" then String.mk st.currentToken else v) = v := by
    by_cases h : v = "" <;> simp [h, hbuf]
  have hgg : ¬(ty = TokenType.Function ∧ v = "(") := by
    rintro ⟨h1, h2⟩; exact hg h1 h2
  simp [addToken, hval, hgg]

/-- `addToken` drawing its value from the buffer, for a non-Function
type: a plain push of the joined buffer. -/
theorem addToken_buffer (st : ScanState) (ty : TokenType) (sub : Option TokenSubType)
    (hf : ty ≠ TokenType.Function) :
    (addToken st ty sub none).1 =
      { st with tokens := st.tokens ++ [⟨String.mk st.currentToken, ty, sub⟩],
                currentToken := [] } := by
  have : ¬(ty = TokenType.Function ∧ String.mk st.currentToken = "(") := by
    rintro ⟨h1, -⟩; exact hf h1
  simp [addToken, this]



theorem goodState_set_stack (st : ScanState) (s : List FormulaToken)
    (h : GoodState st) : GoodState { st with stack := s } :=
  ⟨h.hs, h.hp, h.hre, h.hrb, h.heb, h.hbuf, h.htoks⟩

theorem normalGood_set_stack (st : ScanState) (s : List FormulaToken)
    (h : NormalGood st) : NormalGood { st with stack := s } :=
  ⟨goodState_set_stack st s h.1, h.2.1, h.2.2⟩

theorem flushToks_ok (st : ScanState) (h : GoodState st) :
    ∀ t ∈ flushToks st.currentToken, OkTok t ∧ depthDelta t = 0 := by
  intro t ht
  unfold flushToks at ht
  by_cases hb : st.currentToken = []
  · simp [hb] at ht
  · simp only [hb, if_neg, if_false, List.mem_singleton] at ht
    have hvne : String.mk st.currentToken ≠ "(" := by
      intro hc
      have : st.currentToken = ['('] := by simpa using congrArg String.data hc
      have h1 : '(' ∈ st.currentToken := by simp [this]
      have h2 := h.hbuf h1
      rw [this] at h2
      simp at h2
    subst ht
    unfold classifyValue
    by_cases hn : isNumber (String.mk st.currentToken) <;>
      by_cases hl : isLogical (String.mk st.currentToken) <;>
        simp [hn, hl] <;>
          exact ⟨{ hval := hvne, htext := by simp, hoperand := by simp,
                   hinfx := by simp, hws := by simp }, by simp [depthDelta]⟩

theorem netDepth_flushToks (st : ScanState) (h : GoodState st) :
    netDepth (flushToks st.currentToken) = 0 := by
  by_cases hb : st.currentToken = []
  · simp [flushToks, hb, netDepth]
  · have hm : classifyValue (String.mk st.currentToken) ∈ flushToks st.currentToken := by
      simp [flushToks, hb]
    have := (flushToks_ok st h _ hm).2
    simp [flushToks, hb, netDepth, this]

theorem flush_ok (st : ScanState) (h : NormalGood st) :
    NormalGood (flushBuffer st) ∧
    netDepth (flushBuffer st).tokens = netDepth st.tokens ∧
    (flushBuffer st).stack = st.stack ∧
    (flushBuffer st).currentToken = [] ∧
    (flushBuffer st).inString = false ∧ (flushBuffer st).inPath = false := by
  obtain ⟨hg, hr, he⟩ := h
  rw [flushBuffer_eq]
  refine ⟨⟨⟨hg.hs, hg.hp, by simp [hr], by simp [hr], by simp [he], by simp, ?_⟩, hr, he⟩,
    ?_, rfl, rfl, hg.hs, hg.hp⟩
  · intro t ht
    simp only [List.mem_append] at ht
    rcases ht with ht | ht
    · exact hg.htoks t ht
    · exact (flushToks_ok st hg t ht).1
  · simp [netDepth_append, netDepth_flushToks st hg]

theorem depthDelta_zero_of_not_startstop (t : FormulaToken)
    (h1 : t.subtype ≠ some TokenSubType.Start) (h2 : t.subtype ≠ some TokenSubType.Stop) :
    depthDelta t = 0 := by
  simp [depthDelta, h1, h2]

theorem pushTok_ok (st : ScanState) (ty : TokenType) (sub : Option TokenSubType)
    (v : String) (h : NormalGood st) (hbuf : st.currentToken = [])
    (hok : OkTok ⟨v, ty, sub⟩) :
    NormalGood (addToken st ty sub (some v)).1 ∧
    netDepth (addToken st ty sub (some v)).1.tokens =
      netDepth st.tokens + depthDelta ⟨v, ty, sub⟩ ∧
    (addToken st ty sub (some v)).1.stack = st.stack ∧
    (addToken st ty sub (some v)).1.currentToken = [] ∧
    (addToken st ty sub (some v)).2 = ⟨v, ty, sub⟩ := by
  obtain ⟨hg, hr, he⟩ := h
  rw [addToken_push st ty sub v hbuf (fun _ => hok.hval)]
  refine ⟨⟨⟨hg.hs, hg.hp, by simp [hr], by simp [hr], by simp [he], by simp, ?_⟩,
    hr, he⟩, ?_, rfl, rfl, rfl⟩
  · intro t ht
    simp only [List.mem_append, List.mem_singleton] at ht
    rcases ht with ht | ht
    · exact hg.htoks t ht
    · subst ht; exact hok
  · simp [netDepth_append, netDepth_singleton]




theorem finalize_eq_flush (st : ScanState) :
    finalizeCurrentToken st = flushBuffer st := rfl

theorem addFromBuffer_eq_flush (st : ScanState) :
    addTokenFromBuffer st = flushBuffer st := rfl

theorem handleComma_ok (st : ScanState) (h : NormalGood st) :
    NormalGood (handleComma st) ∧
    netDepth (handleComma st).tokens = netDepth st.tokens ∧
    (handleComma st).currentToken = [] := by
  obtain ⟨h1, hd, -, hb, -, -⟩ := flush_ok st h
  unfold handleComma
  by_cases ha : ((finalizeCurrentToken st).stack.any fun t =>
      t.value = "ARRAY" || t.value = "ARRAYROW") = true
  · simp only [ha, if_true]
    obtain ⟨g1, g2, -, g4, -⟩ := pushTok_ok (finalizeCurrentToken st)
      TokenType.OperatorInfix (some TokenSubType.Union) "," h1 hb
      (by constructor <;> decide)
    refine ⟨g1, ?_, g4⟩
    rw [g2, finalize_eq_flush, hd]
    simp [depthDelta]
  · by_cases hf : ((finalizeCurrentToken st).stack.any fun t =>
        t.type = TokenType.Function) = true
    · simp only [ha, hf, if_true, if_false, Bool.false_eq_true]
      obtain ⟨g1, g2, -, g4, -⟩ := pushTok_ok (finalizeCurrentToken st)
        TokenType.Argument none "," h1 hb (by constructor <;> decide)
      refine ⟨g1, ?_, g4⟩
      rw [g2, finalize_eq_flush, hd]
      simp [depthDelta]
    · simp only [ha, hf, if_false, Bool.false_eq_true]
      obtain ⟨g1, g2, -, g4, -⟩ := pushTok_ok (finalizeCurrentToken st)
        TokenType.OperatorInfix (some TokenSubType.Union) "," h1 hb
        (by constructor <;> decide)
      refine ⟨g1, ?_, g4⟩
      rw [g2, finalize_eq_flush, hd]
      simp [depthDelta]

theorem handleColon_ok (st : ScanState) (h : NormalGood st) :
    NormalGood (handleColon st) ∧
    netDepth (handleColon st).tokens = netDepth st.tokens ∧
    (handleColon st).currentToken = [] := by
  obtain ⟨h1, hd, -, hb, -, -⟩ := flush_ok st h
  unfold handleColon
  obtain ⟨g1, g2, -, g4, -⟩ := pushTok_ok (finalizeCurrentToken st)
    TokenType.OperatorInfix (some TokenSubType.Range) ":" h1 hb
    (by constructor <;> decide)
  refine ⟨g1, ?_, g4⟩
  rw [g2, finalize_eq_flush, hd]
  simp [depthDelta]

theorem handleArraySeparator_ok (st : ScanState) (h : NormalGood st) :
    NormalGood (handleArraySeparator st) ∧
    netDepth (handleArraySeparator st).tokens = netDepth st.tokens ∧
    (handleArraySeparator st).currentToken = [] := by
  obtain ⟨h1, hd, -, hb, -, -⟩ := flush_ok st h
  unfold handleArraySeparator
  by_cases hn : ((finalizeCurrentToken st).stack.filter fun t =>
      t.value = "ARRAY").length = 1
  · simp only [hn, if_true]
    obtain ⟨g1, g2, -, g4, -⟩ := pushTok_ok (finalizeCurrentToken st)
      TokenType.Function (some TokenSubType.Stop) "ARRAYROW" h1 hb
      (by constructor <;> decide)
    obtain ⟨g1', g2', -, g4', -⟩ := pushTok_ok _
      TokenType.Argument none ";" g1 g4 (by constructor <;> decide)
    obtain ⟨g1'', g2'', -, g4'', -⟩ := pushTok_ok _
      TokenType.Function (some TokenSubType.Start) "ARRAYROW" g1' g4'
      (by constructor <;> decide)
    refine ⟨normalGood_set_stack _ _ g1'', ?_, g4''⟩
    show netDepth (addToken (addToken (addToken (finalizeCurrentToken st)
      TokenType.Function (some TokenSubType.Stop) (some "ARRAYROW")).1
      TokenType.Argument none (some ";")).1
      TokenType.Function (some TokenSubType.Start) (some "ARRAYROW")).1.tokens =
      netDepth st.tokens
    rw [g2'', g2', g2, finalize_eq_flush, hd]
    simp [depthDelta]
  · simp only [hn, if_false]
    obtain ⟨g1, g2, -, g4, -⟩ := pushTok_ok (finalizeCurrentToken st)
      TokenType.Argument none ";" h1 hb (by constructor <;> decide)
    refine ⟨g1, ?_, g4⟩
    rw [g2, finalize_eq_flush, hd]
    simp [depthDelta]

theorem handleOpenBrace_ok (st : ScanState) (h : NormalGood st) :
    NormalGood (handleOpenBrace st) ∧
    netDepth (handleOpenBrace st).tokens = netDepth st.tokens + 1 ∧
    (handleOpenBrace st).currentToken = [] := by
  obtain ⟨h1, hd, -, hb, -, -⟩ := flush_ok st h
  unfold handleOpenBrace
  obtain ⟨g1, g2, -, g4, -⟩ := pushTok_ok (finalizeCurrentToken st)
    TokenType.Function (some TokenSubType.Start) "ARRAY" h1 hb
    (by constructor <;> decide)
  refine ⟨normalGood_set_stack _ _ g1, ?_, g4⟩
  show netDepth (addToken (finalizeCurrentToken st) TokenType.Function
    (some TokenSubType.Start) (some "ARRAY")).1.tokens = netDepth st.tokens + 1
  rw [g2, finalize_eq_flush, hd]
  simp [depthDelta]

theorem handleCloseBrace_ok (st : ScanState) (h : NormalGood st) :
    NormalGood (handleCloseBrace st) ∧
    netDepth (handleCloseBrace st).tokens = netDepth st.tokens - 1 ∧
    (handleCloseBrace st).currentToken = [] := by
  obtain ⟨h1, hd, -, hb, -, -⟩ := flush_ok st h
  unfold handleCloseBrace
  obtain ⟨g1, g2, -, g4, -⟩ := pushTok_ok (finalizeCurrentToken st)
    TokenType.Function (some TokenSubType.Stop) "ARRAY" h1 hb
    (by constructor <;> decide)
  have hdep : netDepth (addToken (finalizeCurrentToken st) TokenType.Function
      (some TokenSubType.Stop) (some "ARRAY")).1.tokens = netDepth st.tokens - 1 := by
    rw [g2, finalize_eq_flush, hd]
    simp [depthDelta]
    omega
  by_cases hs : (addToken (finalizeCurrentToken st) TokenType.Function
      (some TokenSubType.Stop) (some "ARRAY")).1.stack = []
  · simp only [ne_eq, hs, not_true_eq_false, if_false]
    exact ⟨g1, hdep, g4⟩
  · simp only [ne_eq, hs, not_false_eq_true, if_true]
    exact ⟨normalGood_set_stack _ _ g1, hdep, g4⟩

theorem handleHash_ok (st : ScanState) (h : NormalGood st) :
    GoodState (handleHash st) ∧
    netDepth (handleHash st).tokens = netDepth st.tokens ∧
    (handleHash st).inRange = false ∧ (handleHash st).inError = true ∧
    (handleHash st).inString = false ∧ (handleHash st).inPath = false := by
  obtain ⟨h1, hd, -, hb, -, -⟩ := flush_ok st h
  unfold handleHash
  obtain ⟨hg1, hr1, he1⟩ := h1
  rw [finalize_eq_flush]
  refine ⟨⟨hg1.hs, hg1.hp, ?_, ?_, ?_, ?_, hg1.htoks⟩, hd, hr1, rfl, hg1.hs, hg1.hp⟩
  · show (flushBuffer st).inRange = true → _
    rw [hr1]; simp
  · show (flushBuffer st).inRange = true → _
    rw [hr1]; simp
  · intro _; simp
  · intro hc; simp at hc




theorem goodState_set_tokens_stack (st : ScanState) (ts ss : List FormulaToken)
    (h : GoodState st) (hts : ∀ t ∈ ts, OkTok t) :
    GoodState { st with tokens := ts, stack := ss } :=
  ⟨h.hs, h.hp, h.hre, h.hrb, h.heb, h.hbuf, hts⟩



theorem okTok_mutated (prev : FormulaToken) (h : OkTok prev) :
    OkTok (mutatedTok prev) :=
  { hval := h.hval, htext := by simp [mutatedTok], hoperand := by simp [mutatedTok],
    hinfx := by simp [mutatedTok], hws := by simp [mutatedTok] }

theorem depthDelta_mutated (prev : FormulaToken) :
    depthDelta (mutatedTok prev) = 1 := by
  simp [mutatedTok, depthDelta]

theorem handleOpenParen_ok (st : ScanState) (h : NormalGood st) :
    NormalGood (handleOpenParen st) ∧
    netDepth (handleOpenParen st).tokens = netDepth st.tokens + 1 ∧
    (handleOpenParen st).currentToken = [] := by
  obtain ⟨h1, hd, -, hb, -, -⟩ := flush_ok st h
  unfold handleOpenParen
  rw [addFromBuffer_eq_flush]
  dsimp only
  split
  case h_2 =>
    obtain ⟨g1, g2, -, g4, -⟩ := pushTok_ok (flushBuffer st)
      TokenType.Subexpression (some TokenSubType.Start) "" h1 hb
      (by constructor <;> decide)
    refine ⟨normalGood_set_stack _ _ g1, ?_, g4⟩
    show netDepth (addToken (flushBuffer st) TokenType.Subexpression
      (some TokenSubType.Start) (some "")).1.tokens = netDepth st.tokens + 1
    rw [g2, hd]
    simp [depthDelta]
  case h_1 prev hlast =>
    by_cases hop : prev.type = TokenType.Operand
    · simp only [hop, if_true]
      obtain ⟨l', hl'⟩ := List.getLast?_eq_some_iff.mp hlast
      have hprevmem : prev ∈ (flushBuffer st).tokens := by rw [hl']; simp
      have hprevok := h1.1.htoks prev hprevmem
      have hdl : (flushBuffer st).tokens.dropLast = l' := by
        rw [hl']; exact List.dropLast_concat
      refine ⟨⟨goodState_set_tokens_stack _ _ _ h1.1 ?_, h1.2.1, h1.2.2⟩, ?_, hb⟩
      · intro t ht
        rw [hdl] at ht
        simp only [List.mem_append, List.mem_singleton] at ht
        rcases ht with ht | ht
        · exact h1.1.htoks t (by rw [hl']; simp [ht])
        · subst ht
          exact okTok_mutated prev hprevok
      · show netDepth ((flushBuffer st).tokens.dropLast ++ [mutatedTok prev]) =
          netDepth st.tokens + 1
        rw [hdl, netDepth_append, netDepth_singleton, depthDelta_mutated]
        have e1 : netDepth (flushBuffer st).tokens = netDepth l' + depthDelta prev := by
          rw [hl', netDepth_append, netDepth_singleton]
        have e2 : depthDelta prev = 0 := by
          obtain ⟨p1, p2⟩ := hprevok.hoperand hop
          exact depthDelta_zero_of_not_startstop prev p1 p2
        rw [hd] at e1
        omega
    · simp only [hop, if_false]
      obtain ⟨g1, g2, -, g4, -⟩ := pushTok_ok (flushBuffer st)
        TokenType.Subexpression (some TokenSubType.Start) "" h1 hb
        (by constructor <;> decide)
      refine ⟨normalGood_set_stack _ _ g1, ?_, g4⟩
      show netDepth (addToken (flushBuffer st) TokenType.Subexpression
        (some TokenSubType.Start) (some "")).1.tokens = netDepth st.tokens + 1
      rw [g2, hd]
      simp [depthDelta]




theorem handleCloseParen_ok (st : ScanState) (h : NormalGood st) :
    NormalGood (handleCloseParen st) ∧
    netDepth (handleCloseParen st).tokens = netDepth st.tokens - 1 ∧
    (handleCloseParen st).currentToken = [] := by
  obtain ⟨h1, hd, -, hb, -, -⟩ := flush_ok st h
  unfold handleCloseParen
  rw [addFromBuffer_eq_flush]
  dsimp only
  split
  case h_1 top hlast =>
    have h1' : NormalGood { flushBuffer st with stack := (flushBuffer st).stack.dropLast } :=
      normalGood_set_stack _ _ h1
    have hd' : netDepth ({ flushBuffer st with
        stack := (flushBuffer st).stack.dropLast } : ScanState).tokens = netDepth st.tokens := hd
    have hb' : ({ flushBuffer st with
        stack := (flushBuffer st).stack.dropLast } : ScanState).currentToken = [] := hb
    by_cases hf : top.type = TokenType.Function
    · simp only [hf, if_true]
      obtain ⟨g1, g2, -, g4, -⟩ := pushTok_ok _
        TokenType.Function (some TokenSubType.Stop) "" h1' hb'
        (by constructor <;> decide)
      refine ⟨g1, ?_, g4⟩
      rw [g2, hd']
      simp [depthDelta]
      omega
    · simp only [hf, if_false]
      obtain ⟨g1, g2, -, g4, -⟩ := pushTok_ok _
        TokenType.Subexpression (some TokenSubType.Stop) "" h1' hb'
        (by constructor <;> decide)
      refine ⟨g1, ?_, g4⟩
      rw [g2, hd']
      simp [depthDelta]
      omega
  case h_2 hlast =>
    obtain ⟨g1, g2, -, g4, -⟩ := pushTok_ok (flushBuffer st)
      TokenType.Subexpression (some TokenSubType.Stop) "" h1 hb
      (by constructor <;> decide)
    refine ⟨g1, ?_, g4⟩
    rw [g2, hd]
    simp [depthDelta]
    omega




theorem structNet_nil (m : SMode) : structNet m [] = 0 := by cases m <;> rfl

theorem delim_facts (c : Char) (h : isErrorDelim c = true) :
    c ≠ '[' ∧ c ≠ '#' ∧ c ≠ '\x7b' ∧ c ≠ '\x7d' := by
  refine ⟨?_, ?_, ?_, ?_⟩ <;> (intro e; subst e; exact absurd h (by decide))

theorem normDelta_of_delim (c : Char) (h : isErrorDelim c = true) :
    normDelta c = parenDelta c := by
  obtain ⟨-, -, h3, h4⟩ := delim_facts c h
  by_cases e1 : c = '(' <;> by_cases e2 : c = ')' <;>
    simp [normDelta, parenDelta, e1, e2, h3, h4]

theorem structNet_norm_delim (c : Char) (cs : List Char) (h : isErrorDelim c = true) :
    structNet .norm (c :: cs) = parenDelta c + structNet .norm cs := by
  obtain ⟨h1, h2, -, -⟩ := delim_facts c h
  simp [structNet, h1, h2, normDelta_of_delim c h]

theorem structNet_err_eq (l : List Char) :
    structNet .err l = structNet .norm (l.dropWhile fun x => !isErrorDelim x) := by
  induction l with
  | nil => rfl
  | cons c cs ih =>
    by_cases h : isErrorDelim c
    · simp only [structNet, h, if_true, List.dropWhile, Bool.not_true,
        Bool.false_eq_true]
      obtain ⟨h1, h2, -, -⟩ := delim_facts c h
      simp [h1, h2, normDelta_of_delim c h]
    · simp only [structNet, h, if_false, List.dropWhile, Bool.not_false,
        Bool.false_eq_true]
      simp only [h] at *
      simpa using ih
  
theorem structNet_norm_dropSpaces (l : List Char) :
    structNet .norm (l.dropWhile fun x => x = ' ') = structNet .norm l := by
  induction l with
  | nil => rfl
  | cons c cs ih =>
    by_cases h : c = ' '
    · subst h
      have e : List.dropWhile (fun x => decide (x = ' ')) (' ' :: cs) =
          List.dropWhile (fun x => decide (x = ' ')) cs := by
        simp [List.dropWhile]
      show structNet SMode.norm (List.dropWhile (fun x => decide (x = ' ')) (' ' :: cs)) = _
      rw [e, ih]
      simp [structNet, normDelta]
    · simp [List.dropWhile, h]

theorem modeOf_norm (st : ScanState) (h1 : st.inRange = false) (h2 : st.inError = false) :
    modeOf st = .norm := by simp [modeOf, h1, h2]

theorem modeOf_rng (st : ScanState) (h1 : st.inRange = true) :
    modeOf st = .rng := by simp [modeOf, h1]

theorem modeOf_err (st : ScanState) (h1 : st.inRange = false) (h2 : st.inError = true) :
    modeOf st = .err := by simp [modeOf, h1, h2]




theorem mk_two_ne_paren (c n : Char) : String.mk [c, n] ≠ "(" := by
  intro h
  have := congrArg String.data h
  simp at this

theorem mk_one_ne_paren (c : Char) (h : c ≠ '(') : String.mk [c] ≠ "(" := by
  intro he
  have := congrArg String.data he
  simp at this
  exact h this

theorem mk_mem_ne_paren (l : List Char) (c : Char) (hc : c ∈ l) (h : c ≠ '(') :
    String.mk l ≠ "(" := by
  intro he
  have : l = ['('] := by simpa using congrArg String.data he
  rw [this] at hc
  simp at hc
  exact h hc

theorem okTok_op_logical (d : String) (hd : d ≠ "(") :
    OkTok ⟨d, TokenType.OperatorInfix, some TokenSubType.Logical⟩ :=
  { hval := hd, htext := by simp, hoperand := by simp,
    hinfx := by simp, hws := by simp }

theorem okTok_op_plain (c : Char) (h : c ≠ '(') :
    OkTok ⟨String.mk [c], TokenType.OperatorInfix, none⟩ :=
  { hval := mk_one_ne_paren c h, htext := by simp, hoperand := by simp,
    hinfx := by simp, hws := by simp }

theorem comparison_cases (c n : Char)
    (h : isComparisonOperator (String.mk [c, n]) = true) :
    (c = '<' ∧ n = '=') ∨ (c = '>' ∧ n = '=') ∨ (c = '<' ∧ n = '>') := by
  simp only [isComparisonOperator, Bool.or_eq_true, decide_eq_true_eq] at h
  rcases h with (h | h) | h
  · have h2 : [c, n] = ['<', '='] := congrArg String.data h
    simp only [List.cons.injEq, and_true] at h2
    exact Or.inl ⟨h2.1, h2.2⟩
  · have h2 : [c, n] = ['>', '='] := congrArg String.data h
    simp only [List.cons.injEq, and_true] at h2
    exact Or.inr (Or.inl ⟨h2.1, h2.2⟩)
  · have h2 : [c, n] = ['<', '>'] := congrArg String.data h
    simp only [List.cons.injEq, and_true] at h2
    exact Or.inr (Or.inr ⟨h2.1, h2.2⟩)

theorem infChar_facts (c : Char) (h : isInfixOperator c = true) :
    normDelta c = 0 ∧ c ≠ '[' ∧ c ≠ '#' ∧ c ≠ '(' := by
  simp only [isInfixOperator, Bool.or_eq_true, decide_eq_true_eq] at h
  rcases h with ((((((((h | h) | h) | h) | h) | h) | h) | h) | h) <;> subst h <;>
    exact ⟨by decide, by decide, by decide, by decide⟩

theorem goodState_accum (st : ScanState) (c : Char) (hg : GoodState st)
    (hr : st.inRange = false) (he : st.inError = false) (hc : c ≠ '(') :
    GoodState { st with currentToken := st.currentToken ++ [c] } := by
  refine ⟨hg.hs, hg.hp, ?_, ?_, ?_, ?_, hg.htoks⟩
  · intro h; rw [show ({ st with currentToken := st.currentToken ++ [c] } :
      ScanState).inRange = st.inRange from rfl] at h
    rw [hr] at h; cases h
  · intro h; rw [show ({ st with currentToken := st.currentToken ++ [c] } :
      ScanState).inRange = st.inRange from rfl] at h
    rw [hr] at h; cases h
  · intro h; rw [show ({ st with currentToken := st.currentToken ++ [c] } :
      ScanState).inError = st.inError from rfl] at h
    rw [he] at h; cases h
  · intro h
    simp only [List.mem_append, List.mem_singleton] at h
    rcases h with h | h
    · exact List.mem_append_left _ (hg.hbuf h)
    · exact absurd h.symm hc




theorem inRange_false_of_inError (st : ScanState) (hg : GoodState st)
    (he : st.inError = true) : st.inRange = false := by
  cases hx : st.inRange
  · rfl
  · have := hg.hre hx
    rw [this] at he
    cases he

theorem handleRange_ok (st : ScanState) (c : Char) (hg : GoodState st)
    (hr : st.inRange = true) :
    GoodState (handleRange st c) ∧
    netDepth (handleRange st c).tokens = netDepth st.tokens ∧
    (handleRange st c).inString = false ∧ (handleRange st c).inPath = false ∧
    (handleRange st c).inError = false ∧
    (handleRange st c).inRange = (if c = ']' then false else true) := by
  have he' : st.inError = false := hg.hre hr
  have hbr : '[' ∈ st.currentToken := hg.hrb hr
  unfold handleRange
  rw [hr]
  refine ⟨⟨hg.hs, hg.hp, ?_, ?_, ?_, ?_, hg.htoks⟩, rfl, hg.hs, hg.hp, he', rfl⟩
  · intro _; exact he'
  · intro _; exact List.mem_append_left _ hbr
  · intro hx
    rw [he'] at hx
    cases hx
  · intro _; exact List.mem_append_left _ hbr



theorem handleError_eq (st : ScanState) (c : Char) (rest : List Char) :
    handleError st c rest =
      ({ st with
          tokens := st.tokens ++ [errorTok st c rest],
          currentToken := [], inError := false },
        (c :: rest).dropWhile fun x => !isErrorDelim x) := by
  unfold handleError errorTok
  dsimp only
  rw [addToken_buffer _ _ _ (by simp)]

theorem handleError_ok (st : ScanState) (c : Char) (rest : List Char)
    (hg : GoodState st) (he : st.inError = true) :
    GoodState (handleError st c rest).1 ∧
    netDepth (handleError st c rest).1.tokens = netDepth st.tokens ∧
    (handleError st c rest).1.inString = false ∧
    (handleError st c rest).1.inPath = false ∧
    (handleError st c rest).1.inRange = false ∧
    (handleError st c rest).1.inError = false ∧
    (handleError st c rest).2 = (c :: rest).dropWhile (fun x => !isErrorDelim x) := by
  have hr' : st.inRange = false := inRange_false_of_inError st hg he
  have hhash : '#' ∈ st.currentToken := hg.heb he
  have hvok : OkTok (errorTok st c rest) := by
    refine { hval := ?_, htext := by simp [errorTok], hoperand := by simp [errorTok],
             hinfx := by simp [errorTok], hws := by simp [errorTok] }
    exact mk_mem_ne_paren _ '#' (List.mem_append_left _ hhash) (by decide)
  rw [handleError_eq]
  refine ⟨⟨hg.hs, hg.hp, by simp [hr'], by simp [hr'], by simp, by simp, ?_⟩,
    ?_, hg.hs, hg.hp, hr', rfl, rfl⟩
  · intro t ht
    simp only [List.mem_append, List.mem_singleton] at ht
    rcases ht with ht | ht
    · exact hg.htoks t ht
    · subst ht; exact hvok
  · have := hvok
    rw [netDepth_append, netDepth_singleton]
    rw [depthDelta_zero_of_not_startstop _ (by simp [errorTok]) (by simp [errorTok])]
    omega

theorem handleWhitespace_ok (st : ScanState) (rest : List Char) (h : NormalGood st) :
    NormalGood (handleWhitespace st rest).1 ∧
    netDepth (handleWhitespace st rest).1.tokens = netDepth st.tokens ∧
    (handleWhitespace st rest).2 = rest.dropWhile (fun x => x = ' ') := by
  obtain ⟨h1, hd, -, hb, -, -⟩ := flush_ok st h
  unfold handleWhitespace
  dsimp only
  obtain ⟨g1, g2, -, -, -⟩ := pushTok_ok (addTokenFromBuffer st)
    TokenType.Whitespace none " " h1 hb (by constructor <;> decide)
  refine ⟨g1, ?_, rfl⟩
  rw [g2, addFromBuffer_eq_flush, hd]
  simp [depthDelta]




theorem stepSingle_ok (st : ScanState) (c : Char) (rest : List Char)
    (h : NormalGood st) :
    GoodState (stepSingle st c rest).1 ∧
    netDepth (stepSingle st c rest).1.tokens +
      structNet (modeOf (stepSingle st c rest).1) (stepSingle st c rest).2 =
      netDepth st.tokens + structNet SMode.norm (c :: rest) ∧
    2 * (stepSingle st c rest).2.length +
      (if (stepSingle st c rest).1.inError = true then 1 else 0) ≤
      2 * rest.length + 1 := by
  have hr := h.2.1
  have he := h.2.2
  unfold stepSingle
  by_cases h1 : isInfixOperator c = true
  · simp only [h1, if_true]
    obtain ⟨f1, fd, -, fb, -, -⟩ := flush_ok st h
    obtain ⟨hnd, hb1, hb2, hb3⟩ := infChar_facts c h1
    obtain ⟨g1, g2, -, -, -⟩ := pushTok_ok (addTokenFromBuffer st)
      TokenType.OperatorInfix none (String.mk [c]) f1 fb (okTok_op_plain c hb3)
    refine ⟨g1.1, ?_, ?_⟩
    · rw [modeOf_norm _ g1.2.1 g1.2.2, g2, addFromBuffer_eq_flush, fd]
      have hsn : structNet SMode.norm (c :: rest) = structNet SMode.norm rest := by
        simp [structNet, hb1, hb2, hnd]
      rw [hsn]
      simp [depthDelta]
    · rw [g1.2.2]
      simp
  · simp only [h1, Bool.false_eq_true, if_false]
    by_cases h2 : c = '%'
    · subst h2
      simp only [if_true]
      obtain ⟨f1, fd, -, fb, -, -⟩ := flush_ok st h
      obtain ⟨g1, g2, -, -, -⟩ := pushTok_ok (addTokenFromBuffer st)
        TokenType.OperatorPostfix none "%" f1 fb (by constructor <;> decide)
      refine ⟨g1.1, ?_, ?_⟩
      · rw [modeOf_norm _ g1.2.1 g1.2.2, g2, addFromBuffer_eq_flush, fd]
        have hsn : structNet SMode.norm ('%' :: rest) = structNet SMode.norm rest := by
          simp [structNet, normDelta]
        rw [hsn]
        simp [depthDelta]
      · rw [g1.2.2]
        simp
    · simp only [h2, if_false]
      by_cases h3 : c = '('
      · subst h3
        simp only [if_true]
        obtain ⟨g1, g2, -⟩ := handleOpenParen_ok st h
        refine ⟨g1.1, ?_, ?_⟩
        · rw [modeOf_norm _ g1.2.1 g1.2.2, g2]
          have hsn : structNet SMode.norm ('(' :: rest) =
              1 + structNet SMode.norm rest := by
            simp [structNet, normDelta]
          rw [hsn]
          omega
        · rw [g1.2.2]
          simp
      · simp only [h3, if_false]
        by_cases h4 : c = ')'
        · subst h4
          simp only [if_true]
          obtain ⟨g1, g2, -⟩ := handleCloseParen_ok st h
          refine ⟨g1.1, ?_, ?_⟩
          · rw [modeOf_norm _ g1.2.1 g1.2.2, g2]
            have hsn : structNet SMode.norm (')' :: rest) =
                -1 + structNet SMode.norm rest := by
              simp [structNet, normDelta]
            rw [hsn]
            omega
          · rw [g1.2.2]
            simp
        · simp only [h4, if_false]
          by_cases h5 : c = '\x7b'
          · subst h5
            simp only [if_true]
            obtain ⟨g1, g2, -⟩ := handleOpenBrace_ok st h
            refine ⟨g1.1, ?_, ?_⟩
            · rw [modeOf_norm _ g1.2.1 g1.2.2, g2]
              have hsn : structNet SMode.norm ('\x7b' :: rest) =
                  1 + structNet SMode.norm rest := by
                simp [structNet, normDelta]
              rw [hsn]
              omega
            · rw [g1.2.2]
              simp
          · simp only [h5, if_false]
            by_cases h6 : c = '\x7d'
            · subst h6
              simp only [if_true]
              obtain ⟨g1, g2, -⟩ := handleCloseBrace_ok st h
              refine ⟨g1.1, ?_, ?_⟩
              · rw [modeOf_norm _ g1.2.1 g1.2.2, g2]
                have hsn : structNet SMode.norm ('\x7d' :: rest) =
                    -1 + structNet SMode.norm rest := by
                  simp [structNet, normDelta]
                rw [hsn]
                omega
              · rw [g1.2.2]
                simp
            · simp only [h6, if_false]
              by_cases h7 : c = '['
              · subst h7
                simp only [if_true]
                have hgood : GoodState (handleOpenBracket st) := by
                  refine ⟨h.1.hs, h.1.hp, ?_, ?_, ?_, ?_, h.1.htoks⟩
                  · intro _
                    exact he
                  · intro _
                    exact List.mem_append_right _ (by simp)
                  · intro hx
                    rw [show (handleOpenBracket st).inError = st.inError from rfl,
                      he] at hx
                    cases hx
                  · intro hx
                    exact List.mem_append_right _ (by simp)
                refine ⟨hgood, ?_, ?_⟩
                · have hm : modeOf (handleOpenBracket st) = SMode.rng := by
                    simp [modeOf, handleOpenBracket]
                  rw [hm]
                  rw [show netDepth (handleOpenBracket st).tokens =
                    netDepth st.tokens from rfl]
                  have hsn : structNet SMode.norm ('[' :: rest) =
                      structNet SMode.rng rest := by
                    simp [structNet]
                  rw [hsn]
                · rw [show (handleOpenBracket st).inError = st.inError from rfl, he]
                  simp
              · simp only [h7, if_false]
                by_cases h8 : c = '#'
                · subst h8
                  simp only [if_true]
                  obtain ⟨g1, g2, gr, ge, -, -⟩ := handleHash_ok st h
                  refine ⟨g1, ?_, ?_⟩
                  · rw [modeOf_err _ gr ge, g2]
                    have hsn : structNet SMode.norm ('#' :: rest) =
                        structNet SMode.err rest := by
                      simp [structNet]
                    rw [hsn]
                  · rw [ge]
                    simp
                · simp only [h8, if_false]
                  by_cases h9 : c = ','
                  · subst h9
                    simp only [if_true]
                    obtain ⟨g1, g2, -⟩ := handleComma_ok st h
                    refine ⟨g1.1, ?_, ?_⟩
                    · rw [modeOf_norm _ g1.2.1 g1.2.2, g2]
                      have hsn : structNet SMode.norm (',' :: rest) =
                          structNet SMode.norm rest := by
                        simp [structNet, normDelta]
                      rw [hsn]
                    · rw [g1.2.2]
                      simp
                  · simp only [h9, if_false]
                    by_cases h10 : c = ':'
                    · subst h10
                      simp only [if_true]
                      obtain ⟨g1, g2, -⟩ := handleColon_ok st h
                      refine ⟨g1.1, ?_, ?_⟩
                      · rw [modeOf_norm _ g1.2.1 g1.2.2, g2]
                        have hsn : structNet SMode.norm (':' :: rest) =
                            structNet SMode.norm rest := by
                          simp [structNet, normDelta]
                        rw [hsn]
                      · rw [g1.2.2]
                        simp
                    · simp only [h10, if_false]
                      by_cases h11 : c = ';'
                      · subst h11
                        simp only [if_true]
                        obtain ⟨g1, g2, -⟩ := handleArraySeparator_ok st h
                        refine ⟨g1.1, ?_, ?_⟩
                        · rw [modeOf_norm _ g1.2.1 g1.2.2, g2]
                          have hsn : structNet SMode.norm (';' :: rest) =
                              structNet SMode.norm rest := by
                            simp [structNet, normDelta]
                          rw [hsn]
                        · rw [g1.2.2]
                          simp
                      · simp only [h11, if_false]
                        by_cases h12 : c = ' '
                        · subst h12
                          simp only [if_true]
                          obtain ⟨g1, g2, g3⟩ := handleWhitespace_ok st rest h
                          refine ⟨g1.1, ?_, ?_⟩
                          · rw [modeOf_norm _ g1.2.1 g1.2.2, g2, g3]
                            rw [structNet_norm_dropSpaces]
                            have hsn : structNet SMode.norm (' ' :: rest) =
                                structNet SMode.norm rest := by
                              simp [structNet, normDelta]
                            rw [hsn]
                          · rw [g1.2.2, g3]
                            simp
                            have := length_dropWhile_le (fun x => x = ' ') rest
                            omega
                        · simp only [h12, if_false]
                          refine ⟨goodState_accum st c h.1 hr he h3, ?_, ?_⟩
                          · rw [show modeOf { st with currentToken :=
                              st.currentToken ++ [c] } = modeOf st from rfl,
                              modeOf_norm st hr he]
                            rw [show netDepth ({ st with currentToken :=
                              st.currentToken ++ [c] } : ScanState).tokens =
                              netDepth st.tokens from rfl]
                            have hsn : structNet SMode.norm (c :: rest) =
                                structNet SMode.norm rest := by
                              simp only [structNet, h7, h8, if_false]
                              rw [show normDelta c = 0 from by
                                simp [normDelta, h3, h4, h5, h6]]
                              simp
                            rw [hsn]
                          · rw [show ({ st with currentToken :=
                              st.currentToken ++ [c] } : ScanState).inError =
                              st.inError from rfl, he]
                            simp




theorem stepNormal_ok (st : ScanState) (c : Char) (rest : List Char)
    (h : NormalGood st) :
    GoodState (stepNormal st c rest).1 ∧
    netDepth (stepNormal st c rest).1.tokens +
      structNet (modeOf (stepNormal st c rest).1) (stepNormal st c rest).2 =
      netDepth st.tokens + structNet SMode.norm (c :: rest) ∧
    2 * (stepNormal st c rest).2.length +
      (if (stepNormal st c rest).1.inError = true then 1 else 0) ≤
      2 * rest.length + 1 := by
  cases rest with
  | nil =>
    have e : stepNormal st c [] = stepSingle st c [] := by
      unfold stepNormal
      rfl
    rw [e]
    exact stepSingle_ok st c [] h
  | cons n rest' =>
    by_cases hcmp : isComparisonOperator (String.mk [c, n]) = true
    · have e : stepNormal st c (n :: rest') =
          ((addToken (addTokenFromBuffer st) TokenType.OperatorInfix
            (some TokenSubType.Logical) (some (String.mk [c, n]))).1, rest') := by
        unfold stepNormal
        simp [List.head?, hcmp]
      rw [e]
      obtain ⟨f1, fd, -, fb, -, -⟩ := flush_ok st h
      obtain ⟨g1, g2, -, -, -⟩ := pushTok_ok (addTokenFromBuffer st)
        TokenType.OperatorInfix (some TokenSubType.Logical) (String.mk [c, n])
        f1 fb (okTok_op_logical _ (mk_two_ne_paren c n))
      refine ⟨g1.1, ?_, ?_⟩
      · rw [modeOf_norm _ g1.2.1 g1.2.2, g2, addFromBuffer_eq_flush, fd]
        have hsn : structNet SMode.norm (c :: n :: rest') =
            structNet SMode.norm rest' := by
          rcases comparison_cases c n hcmp with ⟨e1, e2⟩ | ⟨e1, e2⟩ | ⟨e1, e2⟩ <;>
            (subst e1; subst e2; simp [structNet, normDelta])
        rw [hsn]
        simp [depthDelta]
      · rw [g1.2.2]
        simp
        omega
    · have e : stepNormal st c (n :: rest') = stepSingle st c (n :: rest') := by
        unfold stepNormal
        simp [List.head?, hcmp]
      rw [e]
      exact stepSingle_ok st c (n :: rest') h




/-- The main scan invariant: starting from a well-formed state, the loop
preserves `GoodState` and changes the Start/Stop nesting depth of the
emitted tokens by exactly the reference delimiter count of the consumed
characters. -/
theorem processChars_spec (fuel : Nat) :
    ∀ (cs : List Char) (st : ScanState), GoodState st →
    2 * cs.length + (if st.inError = true then 1 else 0) ≤ fuel →
    GoodState (processChars fuel cs st) ∧
    netDepth (processChars fuel cs st).tokens =
      netDepth st.tokens + structNet (modeOf st) cs := by
  induction fuel with
  | zero =>
    intro cs st hg hfuel
    have hcs : cs = [] := by
      cases cs with
      | nil => rfl
      | cons a l =>
        simp only [List.length_cons] at hfuel
        omega
    subst hcs
    exact ⟨by simpa [processChars] using hg, by simp [processChars, structNet_nil]⟩
  | succ fuel ih =>
    intro cs st hg hfuel
    cases cs with
    | nil =>
      exact ⟨by simpa [processChars] using hg, by simp [processChars, structNet_nil]⟩
    | cons c rest =>
      simp only [processChars, hg.hs, hg.hp, Bool.false_eq_true, if_false]
      by_cases hr : st.inRange = true
      · -- in-range sub-context
        simp only [hr, if_true]
        obtain ⟨g1, g2, -, -, g5, g6⟩ := handleRange_ok st c hg hr
        have he0 : st.inError = false := hg.hre hr
        obtain ⟨ihg, ihd⟩ := ih rest (handleRange st c) g1 (by
          rw [g5]
          simp only [List.length_cons] at hfuel
          rw [he0] at hfuel
          simp at hfuel ⊢
          omega)
        refine ⟨ihg, ?_⟩
        rw [ihd, g2, modeOf_rng st hr]
        by_cases hc : c = ']'
        · subst hc
          have hm : modeOf (handleRange st ']') = SMode.norm := by
            simp [modeOf, g6, g5]
          rw [hm]
          simp [structNet]
        · have hm : modeOf (handleRange st c) = SMode.rng := by
            simp [modeOf, g6, hc]
          rw [hm]
          simp [structNet, hc]
      · simp only [hr, Bool.false_eq_true, if_false]
        replace hr : st.inRange = false := by
          cases hrr : st.inRange
          · rfl
          · exact absurd hrr hr
        by_cases he : st.inError = true
        · -- in-error sub-context
          simp only [he, if_true]
          obtain ⟨g1, g2, -, -, g5, g6, g7⟩ := handleError_ok st c rest hg he
          obtain ⟨ihg, ihd⟩ := ih (handleError st c rest).2 (handleError st c rest).1
            g1 (by
              rw [g6, g7]
              simp only [List.length_cons] at hfuel
              rw [he] at hfuel
              simp at hfuel ⊢
              have := length_dropWhile_le (fun x => !isErrorDelim x) (c :: rest)
              simp at this
              omega)
          refine ⟨ihg, ?_⟩
          rw [ihd, g2, modeOf_err st hr he, modeOf_norm _ g5 g6, g7]
          rw [structNet_err_eq]
        · simp only [he, Bool.false_eq_true, if_false]
          replace he : st.inError = false := by
            cases hee : st.inError
            · rfl
            · exact absurd hee he
          obtain ⟨s1, s2, s3⟩ := stepNormal_ok st c rest ⟨hg, hr, he⟩
          obtain ⟨ihg, ihd⟩ := ih (stepNormal st c rest).2 (stepNormal st c rest).1
            s1 (by
              simp only [List.length_cons] at hfuel
              rw [he] at hfuel
              simp at hfuel
              omega)
          refine ⟨ihg, ?_⟩
          rw [ihd, modeOf_norm st hr he]
          exact s2




theorem adjust_type (t : FormulaToken) :
    (adjustTokenTypes t).type = t.type := by
  unfold adjustTokenTypes
  by_cases h1 : t.type = TokenType.OperatorInfix <;>
    by_cases h2 : t.value = "&" <;>
      by_cases h3 : t.value = "=" ∨ t.value = "<" ∨ t.value = ">" <;>
        simp [h1, h2, h3] <;> split <;> simp_all <;> split <;> simp_all

theorem adjust_value (t : FormulaToken) :
    (adjustTokenTypes t).value = t.value := by
  unfold adjustTokenTypes
  by_cases h1 : t.type = TokenType.OperatorInfix <;>
    by_cases h2 : t.value = "&" <;>
      by_cases h3 : t.value = "=" ∨ t.value = "<" ∨ t.value = ">" <;>
        simp [h1, h2, h3] <;> split <;> simp_all <;> split <;> simp_all

theorem mem_postProcess_adjusted (ts : List FormulaToken) (t : FormulaToken)
    (ht : t ∈ postProcessTokens ts) : ∃ t0 ∈ ts, t = adjustTokenTypes t0 := by
  unfold postProcessTokens at ht
  rw [List.mem_filterMap] at ht
  obtain ⟨t0, hmem, hadj⟩ := ht
  by_cases hfn : t0.type = TokenType.Function ∧ t0.value = "("
  · simp [hfn] at hadj
  · simp only [hfn, if_false] at hadj
    rw [Option.some.injEq] at hadj
    exact ⟨t0, List.mem_of_mem_filter hmem, hadj.symm⟩

theorem mem_parse_adjusted (s : String) (t : FormulaToken) (ht : t ∈ parse s) :
    ∃ t0, t = adjustTokenTypes t0 := by
  unfold parse parseOn at ht
  split at ht
  · simp at ht
  · dsimp only at ht
    obtain ⟨t0, -, h⟩ := mem_postProcess_adjusted _ t ht
    exact ⟨t0, h⟩




theorem depthDelta_adjust (t : FormulaToken) (h : OkTok t) :
    depthDelta (adjustTokenTypes t) = depthDelta t := by
  unfold adjustTokenTypes
  by_cases h1 : t.type = TokenType.OperatorInfix
  · obtain ⟨hs1, hs2⟩ := h.hinfx h1
    rw [depthDelta_zero_of_not_startstop t hs1 hs2]
    by_cases h2 : t.value = "&" <;>
      by_cases h3 : t.value = "=" ∨ t.value = "<" ∨ t.value = ">" <;>
        simp [h1, h2, h3, depthDelta]
  · simp only [h1, if_false]
    by_cases h2 : t.type = TokenType.Operand ∧ t.subtype = some TokenSubType.Range
    · simp only [h2, and_self, if_true]
      split
      · simp [depthDelta, h2.2]
      · rfl
    · simp [h2]

theorem adjust_ne_text (t : FormulaToken) (h : OkTok t) :
    (adjustTokenTypes t).subtype ≠ some TokenSubType.Text := by
  unfold adjustTokenTypes
  by_cases h1 : t.type = TokenType.OperatorInfix
  · by_cases h2 : t.value = "&" <;>
      by_cases h3 : t.value = "=" ∨ t.value = "<" ∨ t.value = ">" <;>
        simp [h1, h2, h3]
  · simp only [h1, if_false]
    by_cases h2 : t.type = TokenType.Operand ∧ t.subtype = some TokenSubType.Range
    · simp only [h2, and_self, if_true]
      split
      · simp
      · exact h.htext
    · simp only [h2, if_false]
      exact h.htext

theorem postProcess_depth (ts : List FormulaToken) (h : ∀ t ∈ ts, OkTok t) :
    netDepth (postProcessTokens ts) = netDepth ts := by
  induction ts with
  | nil => rfl
  | cons t ts ih =>
    have hok := h t (by simp)
    have hrest : ∀ x ∈ ts, OkTok x := fun x hx => h x (by simp [hx])
    by_cases hw : t.type = TokenType.Whitespace
    · have hdz : depthDelta t = 0 := by
        rw [depthDelta_zero_of_not_startstop t] <;> simp [hok.hws hw]
      have e : postProcessTokens (t :: ts) = postProcessTokens ts := by
        unfold postProcessTokens
        simp [List.filter, hw]
      rw [e, ih hrest]
      show _ = depthDelta t + netDepth ts
      rw [hdz]
      omega
    · have hfn : ¬(t.type = TokenType.Function ∧ t.value = "(") := by
        rintro ⟨-, hv⟩
        exact hok.hval hv
      have e : postProcessTokens (t :: ts) =
          adjustTokenTypes t :: postProcessTokens ts := by
        unfold postProcessTokens
        simp [List.filter, hw, List.filterMap, hfn]
      rw [e]
      show depthDelta (adjustTokenTypes t) + netDepth (postProcessTokens ts) =
        depthDelta t + netDepth ts
      rw [ih hrest, depthDelta_adjust t hok]




theorem parse_scan_ok (s : String) (t : FormulaToken)
    (ht : t ∈ (finalizeCurrentToken (processChars
      (2 * (stripLeadingEq s).toList.length + 1) (stripLeadingEq s).toList
      (resetState initState))).tokens) : OkTok t := by
  have hreset : resetState initState = initState := rfl
  rw [hreset] at ht
  obtain ⟨gfin, -⟩ := processChars_spec (2 * (stripLeadingEq s).toList.length + 1)
    (stripLeadingEq s).toList initState goodState_init (by simp [initState])
  rw [finalize_eq_flush, flushBuffer_eq] at ht
  simp only [List.mem_append] at ht
  rcases ht with ht | ht
  · exact gfin.htoks t ht
  · exact (flushToks_ok _ gfin t ht).1

theorem parse_no_text (s : String) (t : FormulaToken) (ht : t ∈ parse s) :
    t.subtype ≠ some TokenSubType.Text := by
  unfold parse parseOn at ht
  split at ht
  · simp at ht
  · dsimp only at ht
    obtain ⟨t0, hmem, hadj⟩ := mem_postProcess_adjusted _ t ht
    subst hadj
    exact adjust_ne_text t0 (parse_scan_ok s t0 hmem)

/-- Core of the balance theorem: the net Start/Stop depth of the parse
output equals the reference delimiter count of the scanned text. -/
theorem parse_netDepth (s : String)
    (hdeg : ¬(jsTrim s = "" ∨ s ∈ ["+", "-", "*", "/"])) :
    netDepth (parse s) = structNet SMode.norm (stripLeadingEq s).toList := by
  unfold parse parseOn
  rw [if_neg hdeg]
  dsimp only
  have hreset : resetState initState = initState := rfl
  rw [hreset]
  obtain ⟨gfin, dfin⟩ := processChars_spec (2 * (stripLeadingEq s).toList.length + 1)
    (stripLeadingEq s).toList initState goodState_init (by simp [initState])
  have hall : ∀ t ∈ (finalizeCurrentToken (processChars
      (2 * (stripLeadingEq s).toList.length + 1) (stripLeadingEq s).toList
      initState)).tokens, OkTok t := by
    intro t ht
    exact parse_scan_ok s t (by rw [hreset]; exact ht)
  rw [postProcess_depth _ hall]
  rw [finalize_eq_flush, flushBuffer_eq]
  show netDepth (_ ++ _) = _
  rw [netDepth_append, netDepth_flushToks _ gfin, dfin]
  rw [show modeOf initState = SMode.norm from rfl]
  simp [initState, netDepth]



theorem adjust_infx_cases (t : FormulaToken) (h : t.type = TokenType.OperatorInfix) :
    (adjustTokenTypes t).subtype = some TokenSubType.Concatenation ∨
    (adjustTokenTypes t).subtype = some TokenSubType.Logical ∨
    (adjustTokenTypes t).subtype = some TokenSubType.Math := by
  unfold adjustTokenTypes
  by_cases h2 : t.value = "&" <;>
    by_cases h3 : t.value = "=" ∨ t.value = "<" ∨ t.value = ">" <;>
      simp [h, h2, h3]

theorem adjust_infx_math (t : FormulaToken) (h : t.type = TokenType.OperatorInfix)
    (h2 : t.value ≠ "&") (h3 : ¬(t.value = "=" ∨ t.value = "<" ∨ t.value = ">")) :
    (adjustTokenTypes t).subtype = some TokenSubType.Math := by
  unfold adjustTokenTypes
  simp [h, h2, h3]

/-! ## Claims -/

set_option maxRecDepth 40000

/-- C1: the spec claims `parse('SUM("")')` yields Function/Start `SUM`,
an Operand/Text empty string and a Function/Stop, with a completed string
literal closing the in-string sub-context.  The code never enters that
sub-context (nothing ever sets `inString`, so `handleString` is dead
code): the quotes are buffered as ordinary characters and the middle
token is an Operand/Range whose value is the two literal quote
characters; moreover no input whatsoever produces a Text-subtype token. -/
theorem c1_string_literal_not_text :
    parse "SUM(\"\")" =
      [⟨"SUM", TokenType.Function, some TokenSubType.Start⟩,
       ⟨"\"\"", TokenType.Operand, some TokenSubType.Range⟩,
       ⟨"", TokenType.Function, some TokenSubType.Stop⟩] ∧
    ∀ (s : String) (t : FormulaToken), t ∈ parse s →
      t.subtype ≠ some TokenSubType.Text :=
  ⟨by decide, parse_no_text⟩

theorem c1_string_literal_not_text_witness :
    (⟨"SUM", TokenType.Function, some TokenSubType.Start⟩ : FormulaToken).subtype ≠
      some TokenSubType.Text :=
  c1_string_literal_not_text.2 "SUM(\"\")" _ (by decide)

/-- C2 counterexample: the claimed token sequence (with commas of subtype
Union) is not what `parse "{1,2;3,4}"` returns, because the refinement
pass rewrites every OperatorInfix subtype and a comma becomes Math. -/
theorem c2_array_tokens_counterexample :
    parse "{1,2;3,4}" ≠
      [⟨"ARRAY", TokenType.Function, some TokenSubType.Start⟩,
       ⟨"1", TokenType.Operand, some TokenSubType.Number⟩,
       ⟨",", TokenType.OperatorInfix, some TokenSubType.Union⟩,
       ⟨"2", TokenType.Operand, some TokenSubType.Number⟩,
       ⟨"ARRAYROW", TokenType.Function, some TokenSubType.Stop⟩,
       ⟨";", TokenType.Argument, none⟩,
       ⟨"ARRAYROW", TokenType.Function, some TokenSubType.Start⟩,
       ⟨"3", TokenType.Operand, some TokenSubType.Number⟩,
       ⟨",", TokenType.OperatorInfix, some TokenSubType.Union⟩,
       ⟨"4", TokenType.Operand, some TokenSubType.Number⟩,
       ⟨"ARRAY", TokenType.Function, some TokenSubType.Stop⟩] := by
  decide

/-- C2 amended: `parse "{1,2;3,4}"` returns exactly the claimed sequence
except that the two commas carry subtype Math (the scan-time Union subtype
is overwritten by `adjustTokenTypes`), and the number of Start-subtype
tokens equals the number of Stop-subtype tokens. -/
theorem c2_array_tokens :
    parse "{1,2;3,4}" =
      [⟨"ARRAY", TokenType.Function, some TokenSubType.Start⟩,
       ⟨"1", TokenType.Operand, some TokenSubType.Number⟩,
       ⟨",", TokenType.OperatorInfix, some TokenSubType.Math⟩,
       ⟨"2", TokenType.Operand, some TokenSubType.Number⟩,
       ⟨"ARRAYROW", TokenType.Function, some TokenSubType.Stop⟩,
       ⟨";", TokenType.Argument, none⟩,
       ⟨"ARRAYROW", TokenType.Function, some TokenSubType.Start⟩,
       ⟨"3", TokenType.Operand, some TokenSubType.Number⟩,
       ⟨",", TokenType.OperatorInfix, some TokenSubType.Math⟩,
       ⟨"4", TokenType.Operand, some TokenSubType.Number⟩,
       ⟨"ARRAY", TokenType.Function, some TokenSubType.Stop⟩] ∧
    ((parse "{1,2;3,4}").countP fun t =>
        decide (t.subtype = some TokenSubType.Start)) =
      ((parse "{1,2;3,4}").countP fun t =>
        decide (t.subtype = some TokenSubType.Stop)) := by
  decide

/-- C3 counterexample: in `parse "1<=2"` the `<=` token is an
OperatorInfix of subtype Math, not Logical — the refinement pass demotes
the scan-time Logical subtype because `<=` is not one of the single
characters `=`, `<`, `>`. -/
theorem c3_demoted_counterexample :
    (parse "1<=2")[1]? =
      some ⟨"<=", TokenType.OperatorInfix, some TokenSubType.Math⟩ ∧
    ¬((parse "1<=2")[1]? =
      some ⟨"<=", TokenType.OperatorInfix, some TokenSubType.Logical⟩) := by
  decide

/-- C3 amended: every OperatorInfix token whose value is one of the
two-character comparison operators `<=`, `>=`, `<>` ends up with subtype
Math in the final stream: the Logical subtype assigned during scanning is
demoted by the post-scan refinement pass. -/
theorem c3_two_char_comparisons_demoted_to_math (s : String) (t : FormulaToken)
    (ht : t ∈ parse s) (htype : t.type = TokenType.OperatorInfix)
    (hval : t.value = "<=" ∨ t.value = ">=" ∨ t.value = "<>") :
    t.subtype = some TokenSubType.Math := by
  obtain ⟨t0, rfl⟩ := mem_parse_adjusted s t ht
  rw [adjust_type] at htype
  rw [adjust_value] at hval
  apply adjust_infx_math t0 htype
  · rcases hval with h | h | h <;> rw [h] <;> decide
  · rcases hval with h | h | h <;> rw [h] <;> rintro (hx | hx | hx) <;>
      exact absurd hx (by decide)

theorem c3_two_char_comparisons_demoted_to_math_witness :
    (⟨"<=", TokenType.OperatorInfix, some TokenSubType.Math⟩ : FormulaToken).subtype =
      some TokenSubType.Math :=
  c3_two_char_comparisons_demoted_to_math "1<=2" _ (by decide) (by decide)
    (by decide)

/-- C4 counterexample: the input `(` contains no closing delimiter at all
(hence no unmatched one), yet the Start/Stop nesting depth of its parse
ends at 1, not 0. -/
theorem c4_balance_counterexample :
    (∀ c ∈ "(".toList, c ≠ ')' ∧ c ≠ '\x7d') ∧
    netDepth (parse "(") ≠ 0 := by
  decide

/-- C4 amended: the claim needs matched openers as well as matched
closers.  For every input whose structural delimiters balance exactly (the
reference automaton `structNet`, which mirrors the scanner's in-range and
in-error sub-contexts, counts net zero over the `=`-stripped text), the
token stream returned by `parse` has Start/Stop nesting depth exactly
zero. -/
theorem c4_balanced_input_depth_zero (s : String) (h : balancedDelims s) :
    netDepth (parse s) = 0 := by
  by_cases hdeg : jsTrim s = "" ∨ s ∈ ["+", "-", "*", "/"]
  · have : parse s = [] := by
      unfold parse parseOn
      rw [if_pos hdeg]
    rw [this]
    rfl
  · rw [parse_netDepth s hdeg]
    exact h

theorem c4_balanced_input_depth_zero_witness :
    netDepth (parse "SUM({1,2;3,4},(A1:B2))") = 0 :=
  c4_balanced_input_depth_zero "SUM({1,2;3,4},(A1:B2))"
    (by unfold balancedDelims; decide)

/-- C5 counterexample: `render (parse "{1,2;3,4}")` is `"{1,2},{3,4}"` —
the renderer closes an `ARRAYROW` as `}` and renders the row separator as
a comma — which differs from the input even after whitespace
normalization, although the formula has no quoting at all. -/
theorem c5_roundtrip_counterexample :
    wsNormalize (render (parse "{1,2;3,4}")) ≠ wsNormalize "{1,2;3,4}" := by
  decide

/-- C5 amended: parse-then-render is the identity up to whitespace on the
repository's round-trip corpus (the test suite's twenty formulas, with the
leading `=` removed as the test does), but not on formulas with array row
separators, which re-render with restructured braces and commas. -/
theorem c5_roundtrip_on_corpus :
    wsNormalize (render (parse "SUM())")) = wsNormalize "SUM())" ∧
    wsNormalize (render (parse "SUM(\"\")")) = wsNormalize "SUM(\"\")" ∧
    wsNormalize (render (parse "\"あいうえお\"&H3&\"b\"")) =
      wsNormalize "\"あいうえお\"&H3&\"b\"" ∧
    wsNormalize (render (parse "1+3+5")) = wsNormalize "1+3+5" ∧
    wsNormalize (render (parse "3 * 4 + 5")) = wsNormalize "3 * 4 + 5" ∧
    wsNormalize (render (parse "50")) = wsNormalize "50" ∧
    wsNormalize (render (parse "1+1")) = wsNormalize "1+1" ∧
    wsNormalize (render (parse "$A1")) = wsNormalize "$A1" ∧
    wsNormalize (render (parse "$B$2")) = wsNormalize "$B$2" ∧
    wsNormalize (render (parse "SUM(B5:B15)")) = wsNormalize "SUM(B5:B15)" ∧
    wsNormalize (render (parse "SUM(B5:B15,D5:D15)")) =
      wsNormalize "SUM(B5:B15,D5:D15)" ∧
    wsNormalize (render (parse "SUM(sheet1!$A$1:$B$2)")) =
      wsNormalize "SUM(sheet1!$A$1:$B$2)" ∧
    wsNormalize (render (parse "[data.xls]sheet1!$A$1")) =
      wsNormalize "[data.xls]sheet1!$A$1" ∧
    wsNormalize (render (parse "#]#NUM!")) = wsNormalize "#]#NUM!" ∧
    wsNormalize (render (parse "3.1E-24-2.1E-24")) =
      wsNormalize "3.1E-24-2.1E-24" ∧
    wsNormalize (render (parse "1%2")) = wsNormalize "1%2" ∧
    wsNormalize (render (parse "{1,2}")) = wsNormalize "{1,2}" ∧
    wsNormalize (render (parse "TRUE")) = wsNormalize "TRUE" ∧
    wsNormalize (render (parse "--1-1")) = wsNormalize "--1-1" ∧
    wsNormalize (render (parse "10*2^(2*(1+1))%")) =
      wsNormalize "10*2^(2*(1+1))%" := by
  decide

/-- C6: `parse` is a total function of its input (it is defined by
structural recursion, so it cannot raise), and on `"SUM())"` the unmatched
closing parenthesis still produces a trailing defensive
Subexpression/Stop token. -/
theorem c6_unmatched_close_paren :
    parse "SUM())" =
      [⟨"SUM", TokenType.Function, some TokenSubType.Start⟩,
       ⟨"", TokenType.Function, some TokenSubType.Stop⟩,
       ⟨"", TokenType.Subexpression, some TokenSubType.Stop⟩] ∧
    (parse "SUM())").getLast? =
      some ⟨"", TokenType.Subexpression, some TokenSubType.Stop⟩ := by
  decide

/-- C7: empty, whitespace-only and single-bare-operator inputs
short-circuit to an empty token stream. -/
theorem c7_degenerate_inputs_empty :
    (parse "" = [] ∧ parse "+" = [] ∧ parse "   " = []) ∧
    ∀ s : String, (jsTrim s = "" ∨ s ∈ ["+", "-", "*", "/"]) → parse s = [] := by
  refine ⟨⟨by decide, by decide, by decide⟩, ?_⟩
  intro s h
  unfold parse parseOn
  rw [if_pos h]

theorem c7_degenerate_inputs_empty_witness : parse "-" = [] :=
  c7_degenerate_inputs_empty.2 "-" (by decide)

/-- C8: the result of `parse` on a given input does not depend on the
instance state left over from any earlier call — `resetState` overwrites
every scanning field, so parsing `g` after parsing `f` returns exactly
what a fresh instance returns for `g`. -/
theorem c8_parse_state_independent (st : ScanState) (f g : String) :
    (parseOn (parseOn st f).1 g).2 = (parseOn initState g).2 := by
  have key : ∀ st1 st2 : ScanState, (parseOn st1 g).2 = (parseOn st2 g).2 := by
    intro st1 st2
    unfold parseOn
    by_cases h : jsTrim g = "" ∨ g ∈ ["+", "-", "*", "/"]
    · rw [if_pos h, if_pos h]
    · rw [if_neg h, if_neg h]
      rfl
  exact key _ initState

/-- C9: every OperatorInfix token in any parse result carries subtype
Concatenation, Logical or Math: the refinement pass overwrites every
OperatorInfix subtype, so the scan-time Union and Range subtypes of
commas and colons never reach the public stream. -/
theorem c9_operator_subtypes_refined (s : String) (t : FormulaToken)
    (ht : t ∈ parse s) (htype : t.type = TokenType.OperatorInfix) :
    t.subtype = some TokenSubType.Concatenation ∨
    t.subtype = some TokenSubType.Logical ∨
    t.subtype = some TokenSubType.Math := by
  obtain ⟨t0, rfl⟩ := mem_parse_adjusted s t ht
  rw [adjust_type] at htype
  exact adjust_infx_cases t0 htype

theorem c9_operator_subtypes_refined_witness :
    (⟨",", TokenType.OperatorInfix, some TokenSubType.Math⟩ : FormulaToken).subtype =
        some TokenSubType.Concatenation ∨
    (⟨",", TokenType.OperatorInfix, some TokenSubType.Math⟩ : FormulaToken).subtype =
        some TokenSubType.Logical ∨
    (⟨",", TokenType.OperatorInfix, some TokenSubType.Math⟩ : FormulaToken).subtype =
        some TokenSubType.Math :=
  c9_operator_subtypes_refined "1,2" _ (by decide) (by decide)

/-- C10: a semicolon with no `ARRAY` scope on the stack emits a single
bare Argument token: concretely `parse "1;2"` is Operand/Number `1`,
Argument `;`, Operand/Number `2` with no `ARRAYROW` tokens, and in
general `handleArraySeparator` on a stack without `ARRAY` entries appends
exactly one Argument `;` token after the buffer flush and leaves the
stack unchanged. -/
theorem c10_semicolon_outside_array :
    parse "1;2" =
      [⟨"1", TokenType.Operand, some TokenSubType.Number⟩,
       ⟨";", TokenType.Argument, none⟩,
       ⟨"2", TokenType.Operand, some TokenSubType.Number⟩] ∧
    ∀ st : ScanState, (∀ t ∈ st.stack, t.value ≠ "ARRAY") →
      (handleArraySeparator st).tokens =
        (finalizeCurrentToken st).tokens ++ [⟨";", TokenType.Argument, none⟩] ∧
      (handleArraySeparator st).stack = st.stack := by
  refine ⟨by decide, ?_⟩
  intro st h
  have hstk : (finalizeCurrentToken st).stack = st.stack := by
    rw [finalize_eq_flush, flushBuffer_eq]
  have hbuf : (finalizeCurrentToken st).currentToken = [] := by
    rw [finalize_eq_flush, flushBuffer_eq]
  have hfil : ((finalizeCurrentToken st).stack.filter fun t =>
      t.value = "ARRAY") = [] := by
    rw [hstk]
    rw [List.filter_eq_nil_iff]
    intro a ha
    simp [h a ha]
  unfold handleArraySeparator
  dsimp only
  rw [hfil]
  simp only [List.length_nil, if_false]
  rw [addToken_push _ _ _ _ hbuf (by simp)]
  exact ⟨rfl, hstk⟩

theorem c10_semicolon_outside_array_witness :
    (handleArraySeparator initState).tokens =
      (finalizeCurrentToken initState).tokens ++
        [⟨";", TokenType.Argument, none⟩] ∧
    (handleArraySeparator initState).stack = initState.stack :=
  c10_semicolon_outside_array.2 initState (by simp [initState])

end EFP

